import Mathlib

/-!
# koa-web-kit: `src/routes/index.js`

A shallow embedding of the response-assembly layer of the server: the module
initialisation, the synchronous assembler `genHtml`, the streaming assembler
`genHtmlStream`, the dispatcher `renderSSR` and the two GET routes.

JavaScript strings are Lean `String`s (sequences of Unicode scalar values);
where the code cuts a string by UTF-16 code units (`from2-string`) the code
units are made explicit. The platform built-ins the source calls
(`JSON.stringify`, `JSON.parse`, `Array.prototype.join`, stream `pipe`) are
modelled next to the code that calls them. The floating-point conversion of
`JSON.parse` is a parameter.
-/

namespace Routes

/-! ## JavaScript values -/

mutual
/-- A JavaScript value as far as `JSON.stringify` distinguishes them. A
number is held as the text `Number::toString` gives for it (`1.5`, `1e+21`,
`NaN`), which determines the number, `+0` and `-0` taken as one; an object is
its list of own properties in enumeration order. -/
inductive JSValue where
  | undefined
  | null
  | bool (b : Bool)
  | num (text : String)
  | str (s : String)
  | arr (xs : JSList)
  | obj (ps : JSProps)
/-- The elements of an array. -/
inductive JSList where
  | nil
  | cons (v : JSValue) (vs : JSList)
/-- The own properties of an object, in enumeration order. -/
inductive JSProps where
  | nil
  | cons (k : String) (v : JSValue) (ps : JSProps)
end

/-- ToBoolean: `undefined`, `null`, `false`, `0`, `NaN` and `''` are
falsy. -/
def JSValue.truthy : JSValue → Bool
  | .undefined => false
  | .null => false
  | .bool b => b
  | .num t => t != "0" && t != "NaN"
  | .str s => s != ""
  | .arr _ => true
  | .obj _ => true

/-- The expression `v || {}`. -/
def JSValue.orEmptyObject (v : JSValue) : JSValue :=
  if v.truthy then v else .obj .nil

/-- The keys of a property list. -/
def JSProps.keys : JSProps → List String
  | .nil => []
  | .cons k _ ps => k :: ps.keys

/-- One property list after another. -/
def JSProps.append : JSProps → JSProps → JSProps
  | .nil, qs => qs
  | .cons k v ps, qs => .cons k v (ps.append qs)

/-- CreateDataProperty: an existing key keeps its place and takes the new
value, a new key is appended. -/
def JSProps.set : JSProps → String → JSValue → JSProps
  | .nil, k, v => .cons k v .nil
  | .cons k0 v0 ps, k, v => if k0 = k then .cons k0 v ps else .cons k0 v0 (ps.set k v)

/-- Building an object from the members of a JSON text, left to right. -/
def JSProps.build : JSProps → JSProps → JSProps
  | acc, .nil => acc
  | acc, .cons k v ps => JSProps.build (acc.set k v) ps

/-! ## JSON.stringify -/

namespace JSON

/-- The double quote character. -/
def dquote : Char := Char.ofNat 34

/-- The backslash character. -/
def bslash : Char := Char.ofNat 92

/-- One lowercase hexadecimal digit. -/
def hexDigit (d : Nat) : Char :=
  if d < 10 then Char.ofNat (48 + d) else Char.ofNat (87 + d)

/-- QuoteJSONString on one character: the quote, the backslash and the
control characters are escaped, everything else is copied. -/
def quoteChar (c : Char) : List Char :=
  if c = dquote then [bslash, dquote]
  else if c = bslash then [bslash, bslash]
  else if c.toNat = 8 then [bslash, 'b']
  else if c.toNat = 9 then [bslash, 't']
  else if c.toNat = 10 then [bslash, 'n']
  else if c.toNat = 12 then [bslash, 'f']
  else if c.toNat = 13 then [bslash, 'r']
  else if c.toNat < 32 then
    [bslash, 'u', '0', '0', hexDigit (c.toNat / 16), hexDigit (c.toNat % 16)]
  else [c]

/-- The escaped body of a string, without the surrounding quotes. -/
def quoteBody : List Char → List Char
  | [] => []
  | c :: cs => quoteChar c ++ quoteBody cs

/-- QuoteJSONString. -/
def quote (s : List Char) : List Char :=
  dquote :: (quoteBody s ++ [dquote])

/-- The text of a number in a JSON text: a finite number is written as
`Number::toString` gives it, `NaN` and the infinities are written `null`. -/
def numberText (t : String) : List Char :=
  if t = "NaN" ∨ t = "Infinity" ∨ t = "-Infinity" then ['n', 'u', 'l', 'l'] else t.data

/-- Joining texts with a comma. -/
def commaJoin : List (List Char) → List Char
  | [] => []
  | [t] => t
  | t :: u :: ts => t ++ ',' :: commaJoin (u :: ts)

mutual
/-- SerializeJSONProperty: `none` is JavaScript's `undefined`. -/
def stringifyValue : JSValue → Option (List Char)
  | .undefined => none
  | .null => some ['n', 'u', 'l', 'l']
  | .bool true => some ['t', 'r', 'u', 'e']
  | .bool false => some ['f', 'a', 'l', 's', 'e']
  | .num t => some (numberText t)
  | .str s => some (quote s.data)
  | .arr xs => some ('[' :: (commaJoin (stringifyElements xs) ++ [']']))
  | .obj ps => some ('{' :: (commaJoin (stringifyMembers ps) ++ ['}']))
/-- SerializeJSONArray: an `undefined` element is written `null`. -/
def stringifyElements : JSList → List (List Char)
  | .nil => []
  | .cons v vs =>
    (match stringifyValue v with
      | some t => t
      | none => ['n', 'u', 'l', 'l']) :: stringifyElements vs
/-- SerializeJSONObject: a property whose value is `undefined` is left out. -/
def stringifyMembers : JSProps → List (List Char)
  | .nil => []
  | .cons k v ps =>
    match stringifyValue v with
    | some t => (quote k.data ++ ':' :: t) :: stringifyMembers ps
    | none => stringifyMembers ps
end

/-- The function `JSON.stringify(v)`; `none` is `undefined`. -/
def stringify (v : JSValue) : Option String :=
  (stringifyValue v).map String.mk

/-! ## JSON.parse -/

/-- JSON whitespace. -/
def isWs (c : Char) : Bool :=
  c.toNat = 32 || c.toNat = 9 || c.toNat = 10 || c.toNat = 13

/-- Skipping leading whitespace. -/
def skipWs : List Char → List Char
  | [] => []
  | c :: cs => if isWs c then skipWs cs else c :: cs

/-- The value of a hexadecimal digit. -/
def hexVal (c : Char) : Option Nat :=
  if 48 ≤ c.toNat ∧ c.toNat ≤ 57 then some (c.toNat - 48)
  else if 97 ≤ c.toNat ∧ c.toNat ≤ 102 then some (c.toNat - 87)
  else if 65 ≤ c.toNat ∧ c.toNat ≤ 70 then some (c.toNat - 55)
  else none

/-- The character of a `\uXXXX` escape; surrogate code units are outside the
model. -/
def hex4 (a b c d : Char) : Option Char :=
  match hexVal a, hexVal b, hexVal c, hexVal d with
  | some x, some y, some z, some w =>
    let n := ((x * 16 + y) * 16 + z) * 16 + w
    if 0xd800 ≤ n ∧ n ≤ 0xdfff then none else some (Char.ofNat n)
  | _, _, _, _ => none

/-- The character of a one-letter escape. -/
def unescape (e : Char) : Option Char :=
  if e = dquote then some dquote
  else if e = bslash then some bslash
  else if e = '/' then some '/'
  else if e = 'b' then some (Char.ofNat 8)
  else if e = 't' then some (Char.ofNat 9)
  else if e = 'n' then some (Char.ofNat 10)
  else if e = 'f' then some (Char.ofNat 12)
  else if e = 'r' then some (Char.ofNat 13)
  else none

/-- The characters of a string literal after its opening quote, up to the
closing quote, and the text after it. -/
def parseStringBody : List Char → Option (List Char × List Char)
  | [] => none
  | c :: cs =>
    if c = dquote then some ([], cs)
    else if c = bslash then
      match cs with
      | [] => none
      | e :: cs1 =>
        if e = 'u' then
          match cs1 with
          | a :: b :: x :: d :: cs2 =>
            match hex4 a b x d with
            | some ch =>
              match parseStringBody cs2 with
              | some (s, r) => some (ch :: s, r)
              | none => none
            | none => none
          | _ => none
        else
          match unescape e with
          | some ch =>
            match parseStringBody cs1 with
            | some (s, r) => some (ch :: s, r)
            | none => none
          | none => none
    else if c.toNat < 32 then none
    else
      match parseStringBody cs with
      | some (s, r) => some (c :: s, r)
      | none => none

/-- Whether a character is a decimal digit. -/
def isDigit (c : Char) : Bool := 48 ≤ c.toNat && c.toNat ≤ 57

/-- The leading digits of a text and what follows them. -/
def takeDigits : List Char → List Char × List Char
  | [] => ([], [])
  | c :: cs =>
    if isDigit c then ((takeDigits cs).1.cons c, (takeDigits cs).2) else ([], c :: cs)

/-- One or more digits and what follows them. -/
def scanDigits (cs : List Char) : Option (List Char × List Char) :=
  match takeDigits cs with
  | ([], _) => none
  | (d :: ds, r) => some (d :: ds, r)

/-- The integer part of a number token: `0`, or digits that do not begin
with `0`. -/
def scanInt (cs : List Char) : Option (List Char × List Char) :=
  match takeDigits cs with
  | ([], _) => none
  | (d :: ds, r) => if d = '0' ∧ ds ≠ [] then none else some (d :: ds, r)

/-- The optional fraction of a number token: a point and one or more
digits. -/
def scanFrac : List Char → Option (List Char × List Char)
  | [] => some ([], [])
  | c :: r =>
    if c = '.' then
      match scanDigits r with
      | some (ds, r1) => some (c :: ds, r1)
      | none => none
    else some ([], c :: r)

/-- The optional exponent of a number token: `e` or `E`, an optional sign and
one or more digits. -/
def scanExp : List Char → Option (List Char × List Char)
  | [] => some ([], [])
  | c :: r =>
    if c = 'e' ∨ c = 'E' then
      match r with
      | [] => none
      | s :: r1 =>
        if s = '+' ∨ s = '-' then
          match scanDigits r1 with
          | some (ds, r2) => some (c :: s :: ds, r2)
          | none => none
        else
          match scanDigits (s :: r1) with
          | some (ds, r2) => some (c :: ds, r2)
          | none => none
    else some ([], c :: r)

/-- The number token at the head of a text (an optional minus, the integer
part, an optional fraction, an optional exponent) and the text after it. -/
def scanNumber : List Char → Option (List Char × List Char)
  | [] => none
  | c :: r =>
    match scanInt (if c = '-' then r else c :: r) with
    | none => none
    | some (i, r1) =>
      match scanFrac r1 with
      | none => none
      | some (f, r2) =>
        match scanExp r2 with
        | none => none
        | some (e, r3) => some ((if c = '-' then c :: i else i) ++ f ++ e, r3)

/-- A JSON number. `canon tok` stands for
`Number::toString(StringToNumber(tok))`, the text of the number the token
denotes: the floating-point conversion of the platform, taken as a
parameter. -/
def parseNumber (canon : List Char → List Char) (cs : List Char) :
    Option (JSValue × List Char) :=
  match scanNumber cs with
  | some (tok, r) => some (.num (String.mk (canon tok)), r)
  | none => none

/-- The text after the literal `lit`, when `text` begins with it. -/
def expect : List Char → List Char → Option (List Char)
  | [], r => some r
  | _ :: _, [] => none
  | p :: ps, c :: cs => if p = c then expect ps cs else none

mutual
/-- One JSON value at the head of a text, and the text after it. -/
def parseValue (canon : List Char → List Char) :
    Nat → List Char → Option (JSValue × List Char)
  | 0, _ => none
  | fuel + 1, cs =>
    match skipWs cs with
    | [] => none
    | c :: r =>
      if c = 'n' then
        match expect ['u', 'l', 'l'] r with
        | some r1 => some (.null, r1)
        | none => none
      else if c = 't' then
        match expect ['r', 'u', 'e'] r with
        | some r1 => some (.bool true, r1)
        | none => none
      else if c = 'f' then
        match expect ['a', 'l', 's', 'e'] r with
        | some r1 => some (.bool false, r1)
        | none => none
      else if c = '[' then
        match skipWs r with
        | [] => none
        | d :: r1 =>
          if d = ']' then some (.arr .nil, r1)
          else
            match parseElements canon fuel (d :: r1) with
            | some (xs, r2) => some (.arr xs, r2)
            | none => none
      else if c = '{' then
        match skipWs r with
        | [] => none
        | d :: r1 =>
          if d = '}' then some (.obj .nil, r1)
          else
            match parseMembers canon fuel (d :: r1) with
            | some (ps, r2) => some (.obj (JSProps.build .nil ps), r2)
            | none => none
      else if c = dquote then
        match parseStringBody r with
        | some (s, r1) => some (.str (String.mk s), r1)
        | none => none
      else parseNumber canon (c :: r)
/-- The elements of a non-empty array up to and including its `]`. -/
def parseElements (canon : List Char → List Char) :
    Nat → List Char → Option (JSList × List Char)
  | 0, _ => none
  | fuel + 1, cs =>
    match parseValue canon fuel cs with
    | none => none
    | some (v, r) =>
      match skipWs r with
      | [] => none
      | d :: r1 =>
        if d = ',' then
          match parseElements canon fuel r1 with
          | some (vs, r2) => some (.cons v vs, r2)
          | none => none
        else if d = ']' then some (.cons v .nil, r1)
        else none
/-- The members of a non-empty object up to and including its `}`. -/
def parseMembers (canon : List Char → List Char) :
    Nat → List Char → Option (JSProps × List Char)
  | 0, _ => none
  | fuel + 1, cs =>
    match skipWs cs with
    | [] => none
    | q :: r =>
      if q = dquote then
        match parseStringBody r with
        | none => none
        | some (k, r1) =>
          match skipWs r1 with
          | [] => none
          | d :: r2 =>
            if d = ':' then
              match parseValue canon fuel r2 with
              | none => none
              | some (v, r3) =>
                match skipWs r3 with
                | [] => none
                | e :: r4 =>
                  if e = ',' then
                    match parseMembers canon fuel r4 with
                    | some (ps, r5) => some (.cons (String.mk k) v ps, r5)
                    | none => none
                  else if e = '}' then some (.cons (String.mk k) v .nil, r4)
                  else none
            else none
      else none
end

/-- What may follow a value in a text: nothing that would continue a
number. -/
def restOK (rest : List Char) : Prop :=
  ∀ c, rest.head? = some c → isDigit c = false ∧ c ≠ '.' ∧ c ≠ 'e' ∧ c ≠ 'E'

/-- The function `JSON.parse(text)`; `none` is a thrown SyntaxError. For
`canon` see `parseNumber`. -/
def parse (canon : List Char → List Char) (text : String) : Option JSValue :=
  match parseValue canon (text.length + 1) text.data with
  | some (v, r) => if skipWs r = [] then some v else none
  | none => none

end JSON

/-! ## Values that `JSON.stringify` and `JSON.parse` carry faithfully -/

mutual
/-- A value without `undefined` in it, with finite numbers only and with
distinct keys in every object. The text of a finite number is a number token
that `canon` leaves as it is (`Number::toString` of a number gives that
number back when it is read). -/
def JSValue.serializable (canon : List Char → List Char) : JSValue → Bool
  | .undefined => false
  | .null => true
  | .bool _ => true
  | .num t => decide (JSON.scanNumber t.data = some (t.data, []) ∧ canon t.data = t.data)
  | .str _ => true
  | .arr xs => xs.serializable canon
  | .obj ps => ps.serializable canon
/-- All elements serializable. -/
def JSList.serializable (canon : List Char → List Char) : JSList → Bool
  | .nil => true
  | .cons v vs => v.serializable canon && vs.serializable canon
/-- All values serializable and no key twice. -/
def JSProps.serializable (canon : List Char → List Char) : JSProps → Bool
  | .nil => true
  | .cons k v ps =>
    !(ps.keys.contains k) && v.serializable canon && ps.serializable canon
end

mutual
/-- The fuel `JSON.parseValue` needs on the text of a value. -/
def JSValue.need : JSValue → Nat
  | .arr xs => xs.need + 1
  | .obj ps => ps.need + 1
  | _ => 1
/-- The fuel `JSON.parseElements` needs on the text of the elements. -/
def JSList.need : JSList → Nat
  | .nil => 0
  | .cons v vs => v.need + vs.need + 1
/-- The fuel `JSON.parseMembers` needs on the text of the members. -/
def JSProps.need : JSProps → Nat
  | .nil => 0
  | .cons _ v ps => v.need + ps.need + 1
end

/-! ## What the rest of the repository provides -/

/-- The optional fields of a render result that the assemblers read
(`extra.title`, `extra.initialData`, `extra.scripts`, `extra.modules`);
`none` is an absent field. -/
structure Extra where
  title : Option String := none
  initialData : JSValue := .undefined
  scripts : Option (List String) := none
  modules : Option (List String) := none

/-- How a readable stream finishes: with its `end` event or with an `error`
event. -/
inductive Fate where
  | ended
  | errored (e : String)

/-- A readable stream as its listeners see it: the chunks of its `data`
events in order, then the event that finishes it. -/
structure RenderStream where
  chunks : List String
  fate : Fate

/-- The object returned by `s.render(url, data)`. -/
structure Rendered where
  html : String
  extra : Extra

/-- The object returned by `s.renderWithStream(url, data)`. -/
structure RenderedStream where
  html : RenderStream
  extra : Extra

/-- The render engine instance `s = new SSR()` of `../build/node/ssr`. -/
structure SSR where
  render : String → JSValue → Rendered
  renderWithStream : String → JSValue → RenderedStream
  getRenderedBundleScripts : List String → List String

/-- The value `SSR.groupedManifest`. -/
structure GroupedManifest where
  styles : Option (List String)
  manifest : List (String × String)

/-- What `../config/env`, `../config/utils`, the build output and the file
system provide when the module is loaded. -/
structure Env where
  isSSREnabled : Bool
  isHMREnabled : Bool
  DEV_MODE : Bool
  publicPath : String
  RUNTIME_JS : String
  APP_JS : String
  groupedManifest : GroupedManifest
  engine : SSR
  readFileSync : String → Option String

/-- A thrown JavaScript exception. -/
inductive JSError where
  | typeError (msg : String)
  | ioError (path : String)
  | fetchError (e : String)
  | streamError (e : String)
deriving DecidableEq

/-- String conversion of a possibly `undefined` string, as in a template
literal or in `+`. -/
def jsString : Option String → String
  | some s => s
  | none => "undefined"

/-- The expression `a.join(sep)` on an array of strings. -/
def join (sep : String) : List String → String
  | [] => ""
  | [t] => t
  | t :: u :: ts => t ++ sep ++ join sep (u :: ts)

/-- String conversion of an array of strings (`Array.prototype.toString`),
as in a template literal. -/
def arrayToString (a : List String) : String := join "," a

/-! ## Module initialisation (lines 12-63) -/

/-- The module-level variables after the module is loaded. -/
structure ModuleState where
  isSSREnabled : Bool
  publicPath : String
  APP_JS : String
  indexHtml : String
  s : Option SSR
  manifest : Option (List (String × String))
  styleLinks : String
  manifestInlineScript : String

/-- One `<link>` tag of `styleLinks`. -/
def styleLink (publicPath style : String) : String :=
  "<link href=\"" ++ publicPath ++ style ++ "\" rel=\"stylesheet\">"

/-- Loading the module: the `if (isSSREnabled) ... else if (!isHMREnabled)`
block. An error is an exception thrown while the module loads. -/
def init (env : Env) : Except JSError ModuleState :=
  if env.isSSREnabled then
    let groupedManifest := env.groupedManifest
    let manifest := groupedManifest.manifest
    let styleLinks :=
      match groupedManifest.styles with
      | some styles => join "\n" (styles.map (styleLink env.publicPath))
      | none => ""
    let manifestInlineScript :=
      "<script type=\"text/javascript\" src=\"" ++
        (env.publicPath ++ jsString (manifest.lookup env.RUNTIME_JS)) ++ "\"></script>"
    if !env.DEV_MODE then
      match env.readFileSync ("../build/app/" ++ jsString (manifest.lookup env.RUNTIME_JS)) with
      | none => .error (.ioError ("../build/app/" ++ jsString (manifest.lookup env.RUNTIME_JS)))
      | some temp =>
        .ok { isSSREnabled := true, publicPath := env.publicPath, APP_JS := env.APP_JS,
              indexHtml := "", s := some env.engine, manifest := some manifest,
              styleLinks := styleLinks,
              manifestInlineScript := "<script type=\"text/javascript\">" ++ temp ++ "</script>" }
    else
      .ok { isSSREnabled := true, publicPath := env.publicPath, APP_JS := env.APP_JS,
            indexHtml := "", s := some env.engine, manifest := some manifest,
            styleLinks := styleLinks, manifestInlineScript := manifestInlineScript }
  else if !env.isHMREnabled then
    .ok { isSSREnabled := false, publicPath := env.publicPath, APP_JS := env.APP_JS,
          indexHtml :=
            match env.readFileSync "../build/app/index.html" with
            | some text => text
            | none => "",
          s := none, manifest := none, styleLinks := "", manifestInlineScript := "" }
  else
    .ok { isSSREnabled := false, publicPath := env.publicPath, APP_JS := env.APP_JS,
          indexHtml := "", s := none, manifest := none, styleLinks := "",
          manifestInlineScript := "" }

/-! ## The templates -/

/-- The expression `extra.title || 'React App'`. -/
def titleOf (extra : Extra) : String :=
  match extra.title with
  | some t => if t = "" then "React App" else t
  | none => "React App"

/-- The expression `JSON.stringify(extra.initialData || {})`, converted to a
string by the template. -/
def initialDataText (extra : Extra) : String :=
  jsString (JSON.stringify extra.initialData.orEmptyObject)

/-- The expression `publicPath + manifest[ENTRY_NAME.APP_JS]`; reading a
property of an `undefined` manifest throws. -/
def appSrc (m : ModuleState) : Except JSError String :=
  match m.manifest with
  | none => .error (.typeError "Cannot read property of undefined")
  | some manifest => .ok (m.publicPath ++ jsString (manifest.lookup m.APP_JS))

/-- The text the two documents share up to the title. -/
def docOpen : String :=
  "\n    <!DOCTYPE html>\n      <html lang=\"en\">\n      <head>\n        <meta charset=\"UTF-8\">\n        <meta name=\"viewport\" content=\"width=device-width, initial-scale=1, shrink-to-fit=no, user-scalable=no\">\n        <title>"

/-- The text that opens the initial-data script. -/
def dataScriptOpen : String :=
  "<script type=\"text/javascript\">window.__INITIAL_DATA__ = "

/-- The text that opens the app script, up to its `src` value. -/
def appScriptOpen : String := "<script type=\"text/javascript\" src=\""

/-- The text that closes the app script and the document. -/
def docClose : String := "\"></script>\n      </body>\n    </html>\n  "

/-! ## genHtml (lines 153-185) -/

/-- The function `genHtml(html, extra = {})`. An omitted `html` is `none`. -/
def genHtml (m : ModuleState) (html : Option String) (extra : Extra) : Except JSError String :=
  if m.indexHtml ≠ "" then .ok m.indexHtml
  else
    let loadableComponents := extra.scripts.getD []
    let renderedComponentsScripts := join "" loadableComponents
    match appSrc m with
    | .error e => .error e
    | .ok src =>
      .ok (docOpen ++ titleOf extra ++ "</title>\n        " ++ m.styleLinks ++
        "\n      </head>\n      <body>\n        <div id=\"app\">" ++ jsString html ++
        "</div>\n        " ++ dataScriptOpen ++ initialDataText extra ++
        "</script>\n        " ++ m.manifestInlineScript ++
        "\n        " ++ renderedComponentsScripts ++
        "\n        \n        " ++ appScriptOpen ++ src ++ docClose)

/-! ## genHtmlStream (lines 187-241) -/

/-- The phases of a streaming session, named after the point of
`genHtmlStream` that was reached. -/
inductive Phase where
  | HeadSent
  | MarkupStreaming
  | TailPending
  | TailStreaming
  | Ended
deriving DecidableEq

/-- What a request does, in the order it happens: the calls it makes
(`logger.info`, the render engine, the assemblers, `res.write`, `res.end`),
the stream events delivered to it (`onEnd`, `onError`) and, as a marker
without effect, the phase reached (`enter`). A `write` is recorded with the
text that the bytes written are the UTF-8 form of. -/
inductive Effect where
  | log (msg : String)
  | render (url : String) (data : JSValue)
  | renderWithStream (url : String) (data : JSValue)
  | genHtml
  | genHtmlStream
  | getRenderedBundleScripts (modules : List String)
  | write (chunk : String)
  | resEnd
  | onEnd (stream : String)
  | onError (stream : String)
  | enter (p : Phase)

/-- The Koa context of one request, with the response sink `ctx.res`
recorded as the writes and the end calls in `trace`. -/
structure Ctx where
  url : String
  headers : List (String × String) := []
  state : Option JSValue := none
  body : Option String := none
  status : Nat := 404
  respond : Bool := true
  trace : List Effect := []
  unhandled : Option JSError := none

/-- Recording effects. -/
def Ctx.emit (ctx : Ctx) (es : List Effect) : Ctx :=
  { ctx with trace := ctx.trace ++ es }

/-- Recording the phase that was reached. -/
def Ctx.enter (ctx : Ctx) (p : Phase) : Ctx :=
  ctx.emit [.enter p]

/-- The head template `before`. -/
def before (m : ModuleState) (extra : Extra) : String :=
  docOpen ++ titleOf extra ++ "</title>\n        " ++ m.styleLinks ++
    "\n      </head>\n      <body><div id=\"app\">"

/-- The tail template `after`, given the value of
`renderedComponentsScripts`. -/
def after (m : ModuleState) (extra : Extra) (renderedComponentsScripts : List String) :
    Except JSError String :=
  match appSrc m with
  | .error e => .error e
  | .ok src =>
    .ok ("</div>\n    " ++ dataScriptOpen ++ initialDataText extra ++
      "</script>\n        " ++ m.manifestInlineScript ++
      "\n        " ++ arrayToString renderedComponentsScripts ++
      "\n        " ++ appScriptOpen ++ src ++ docClose)

/-- The default `highWaterMark` of a readable stream. -/
def highWaterMark : Nat := 16384

/-- The UTF-16 code units of one character: itself, or a high and a low
surrogate for a character above U+FFFF. -/
def utf16Units (c : Char) : List Nat :=
  if c.toNat < 65536 then [c.toNat]
  else [55296 + (c.toNat - 65536) / 1024, 56320 + (c.toNat - 65536) % 1024]

/-- A JavaScript string as its UTF-16 code units. -/
def utf16 : List Char → List Nat
  | [] => []
  | c :: cs => utf16Units c ++ utf16 cs

/-- A high surrogate, U+D800 to U+DBFF. -/
def isHighSurrogate (u : Nat) : Bool := 55296 ≤ u && u < 56320

/-- A low surrogate, U+DC00 to U+DFFF. -/
def isLowSurrogate (u : Nat) : Bool := 56320 ≤ u && u < 57344

/-- The replacement character U+FFFD. -/
def replacement : Char := Char.ofNat 65533

/-- The text of the UTF-8 bytes a string of code units is converted to
(`Buffer.from(chunk)`): a surrogate pair is its character, a surrogate
without its partner is U+FFFD. -/
def utf8Text : List Nat → List Char
  | [] => []
  | u :: us =>
    if isHighSurrogate u then
      match us with
      | [] => [replacement]
      | l :: us1 =>
        if isLowSurrogate l then
          Char.ofNat (65536 + (u - 55296) * 1024 + (l - 56320)) :: utf8Text us1
        else replacement :: utf8Text (l :: us1)
    else if isLowSurrogate u then replacement :: utf8Text us
    else Char.ofNat u :: utf8Text us

/-- The chunks `from2-string` hands out: `string.slice(0, size)`, a cut by
code units, until the string is empty; each chunk is pushed as a string and
so converted to bytes on its own. -/
def sliceChunks (size : Nat) : Nat → List Nat → List String
  | 0, _ => []
  | fuel + 1, string =>
    if string.length ≤ 0 then []
    else String.mk (utf8Text (string.take size)) :: sliceChunks size fuel (string.drop size)

/-- The stream `fromString(string)`. -/
def fromString (string : String) : RenderStream :=
  { chunks := sliceChunks highWaterMark (utf16 string.data).length (utf16 string.data),
    fate := .ended }

/-- The events of `src` as the listeners of `src.pipe(res, { end: doEnd })`
handle them: every chunk is written to the sink, and the sink is ended with
the source only when `doEnd` holds. An `error` event of the source has no
listener, neither here nor in this module. -/
def pipe (name : String) (src : RenderStream) (doEnd : Bool) (ctx : Ctx) : Ctx :=
  let ctx := ctx.emit (src.chunks.map Effect.write)
  match src.fate with
  | .ended => (ctx.emit [.onEnd name]).emit (if doEnd then [.resEnd] else [])
  | .errored e => { ctx.emit [.onError name] with unhandled := some (.streamError e) }

/-- The listener `afterStream.on('end', ...)`. -/
def afterStreamOnEnd (ctx : Ctx) : Ctx :=
  ((ctx.emit [.log "afterStream done"]).emit [.resEnd]).enter .Ended

/-- The value of `renderedComponentsScripts` in the `end` listener, with the
call that gives it: `[]` unless `extra.modules` is there, then
`s.getRenderedBundleScripts(extra.modules)`. -/
def lookupScripts (m : ModuleState) (extra : Extra) :
    Except JSError (List String × List Effect) :=
  match extra.modules with
  | some modules =>
    match m.s with
    | some s => .ok (s.getRenderedBundleScripts modules, [.getRenderedBundleScripts modules])
    | none => .error (.typeError "Cannot read property of undefined")
  | none => .ok ([], [])

/-- The listener `nodeStreamFromReact.on('end', ...)`. -/
def markupOnEnd (m : ModuleState) (extra : Extra) (ctx : Ctx) : Ctx :=
  let ctx := (ctx.emit [.log "nodeStreamFromReact end"]).enter .TailPending
  match lookupScripts m extra with
  | .error e => { ctx with unhandled := some e }
  | .ok (renderedComponentsScripts, called) =>
    let ctx := ctx.emit called
    match after m extra renderedComponentsScripts with
    | .error e => { ctx with unhandled := some e }
    | .ok text =>
      let afterStream := fromString text
      let ctx := pipe "afterStream" afterStream false (ctx.enter .TailStreaming)
      match afterStream.fate with
      | .ended => afterStreamOnEnd ctx
      | .errored _ => ctx

/-- The function `genHtmlStream(nodeStreamFromReact, extra = {}, res)`. -/
def genHtmlStream (m : ModuleState) (nodeStreamFromReact : RenderStream) (extra : Extra)
    (ctx : Ctx) : Ctx :=
  let ctx := (ctx.emit [.write (before m extra)]).enter .HeadSent
  let ctx := pipe "nodeStreamFromReact" nodeStreamFromReact false (ctx.enter .MarkupStreaming)
  match nodeStreamFromReact.fate with
  | .ended => markupOnEnd m extra ctx
  | .errored _ => ctx

/-! ## renderSSR and the routes (lines 69-151) -/

/-- The default of the parameter `data = {}`: it replaces `undefined`. -/
def defaultData : JSValue → JSValue
  | .undefined => .obj .nil
  | d => d

/-- The function `renderSSR(ctx, data = {}, streaming)`. -/
def renderSSR (m : ModuleState) (ctx : Ctx) (data : JSValue) (streaming : Bool) :
    Except JSError Ctx :=
  let data := defaultData data
  match m.s with
  | none => .error (.typeError "Cannot read property of undefined")
  | some s =>
    if !streaming then
      let ctx := ctx.emit [.log "-----> Use React SSR Sync API!", .render ctx.url data]
      let rendered := s.render ctx.url data
      let rendered := { rendered with extra := { rendered.extra with initialData := data } }
      match genHtml m (some rendered.html) rendered.extra with
      | .error e => .error e
      | .ok text => .ok { ctx.emit [.genHtml] with body := some text, status := 200 }
    else
      let ctx := ctx.emit [.log "-----> Use React SSR Streaming API!", .renderWithStream ctx.url data]
      let rendered := s.renderWithStream ctx.url data
      let rendered := { rendered with extra := { rendered.extra with initialData := data } }
      let ctx := { ctx with headers := ctx.headers ++ [("Content-Type", "text/html")],
                            status := 200, respond := false }
      .ok (genHtmlStream m rendered.html rendered.extra (ctx.emit [.genHtmlStream]))

/-- The middleware `router.use(...)` up to `await next()`. -/
def middleware (ctx : Ctx) : Ctx :=
  { ctx with headers := ctx.headers ++ [("Cache-Control", "no-cache")],
             state := some (.obj (.cons "initialData" (.obj .nil) .nil)) }

/-- The two GET routes. -/
inductive Route where
  | github
  | star
deriving DecidableEq

/-- The handler of `router.get('/github', ...)`; `fetched` is what the
request to the GitHub API comes back with. -/
def getGithub (m : ModuleState) (fetched : Except String JSValue) (ctx : Ctx) :
    Except JSError Ctx :=
  if !m.isSSREnabled then
    match genHtml m none {} with
    | .error e => .error e
    | .ok text => .ok { ctx.emit [.genHtml] with body := some text, status := 200 }
  else
    match fetched with
    | .error e => .error (.fetchError e)
    | .ok ret => renderSSR m ctx (.obj (.cons "github" ret .nil)) true

/-- The handler of `router.get('*', ...)`. -/
def getStar (m : ModuleState) (ctx : Ctx) : Except JSError Ctx :=
  if !m.isSSREnabled then
    match genHtml m none {} with
    | .error e => .error e
    | .ok text => .ok { ctx.emit [.genHtml] with body := some text, status := 200 }
  else
    renderSSR m ctx .undefined false

/-- A GET request to `url`, matched by route `r`, through the middleware and
the handler. -/
def handleGet (m : ModuleState) (r : Route) (url : String) (fetched : Except String JSValue) :
    Except JSError Ctx :=
  match r with
  | .github => getGithub m fetched (middleware { url := url })
  | .star => getStar m (middleware { url := url })

/-! ## Observations on a trace -/

/-- The chunks written to the sink before it is ended for the first time. -/
def writesBeforeEnd : List Effect → List String
  | [] => []
  | .write chunk :: es => chunk :: writesBeforeEnd es
  | .resEnd :: _ => []
  | _ :: es => writesBeforeEnd es

/-- How often `res.end()` is called. -/
def endCount : List Effect → Nat
  | [] => 0
  | .resEnd :: es => endCount es + 1
  | _ :: es => endCount es

/-- The phases entered, in order. -/
def phasesOf : List Effect → List Phase
  | [] => []
  | .enter p :: es => p :: phasesOf es
  | _ :: es => phasesOf es

/-- The calls to the render engine and to the assemblers, in order. -/
def renderCalls : List Effect → List Effect
  | [] => []
  | .render url data :: es => .render url data :: renderCalls es
  | .renderWithStream url data :: es => .renderWithStream url data :: renderCalls es
  | .genHtml :: es => .genHtml :: renderCalls es
  | .genHtmlStream :: es => .genHtmlStream :: renderCalls es
  | _ :: es => renderCalls es

/-- The module lists `s.getRenderedBundleScripts` was called with, in order. -/
def lookups : List Effect → List (List String)
  | [] => []
  | .getRenderedBundleScripts modules :: es => modules :: lookups es
  | _ :: es => lookups es

/-! ## Observations on a document -/

/-- Whether `text` begins with `pat`. -/
def startsWith : List Char → List Char → Bool
  | [], _ => true
  | _ :: _, [] => false
  | p :: ps, c :: cs => p == c && startsWith ps cs

/-- The number of places of `text` at which `pat` occurs. -/
def occurrences (pat : List Char) : List Char → Nat
  | [] => 0
  | c :: cs => (if startsWith pat (c :: cs) then 1 else 0) + occurrences pat cs

/-- The text before the first occurrence of `pat`: for `pat = </script>` the
content of a script element whose content starts at the head of `text`. -/
def untilFirst (pat : List Char) : List Char → List Char
  | [] => []
  | c :: cs => if startsWith pat (c :: cs) then [] else c :: untilFirst pat cs

/-- No end of `text` is a beginning of `pat` shorter than `pat`: no
occurrence of `pat` can start in `text` and go on after it. -/
def overlapFree (pat : List Char) : List Char → Bool
  | [] => true
  | c :: cs =>
    !(decide ((c :: cs).length < pat.length) && startsWith (c :: cs) pat) && overlapFree pat cs

/-- The first character of `text` is none of the characters of `pat` after
its first: no occurrence of `pat` that started earlier can go on into
`text`. -/
def headFree (pat : List Char) : List Char → Bool
  | [] => false
  | c :: _ => !(pat.tail.contains c)

/-- The end tag of a script element. -/
def scriptClose : String := "</script>"

/-- The assignment of the initial-data script. -/
def dataMarker : String := "window.__INITIAL_DATA__ = "

/-- The start of a script element. -/
def scriptOpen : String := "<script"

/-! ## Example inputs -/

/-- A render engine: one module script for every module list. -/
def sampleEngine : SSR where
  render := fun _ data =>
    { html := "<div>A</div>", extra := { title := some "Home", initialData := data } }
  renderWithStream := fun _ data =>
    { html := { chunks := ["<div>A</div>"], fate := .ended },
      extra := { modules := some ["Widget"], initialData := data } }
  getRenderedBundleScripts := fun _ => ["<script src=/w.js>"]

/-- A development build with SSR enabled. -/
def devEnv : Env where
  isSSREnabled := true
  isHMREnabled := false
  DEV_MODE := true
  publicPath := "/"
  RUNTIME_JS := "runtime.js"
  APP_JS := "app.js"
  groupedManifest :=
    { styles := some ["app.css"],
      manifest := [("runtime.js", "runtime.1.js"), ("app.js", "app.1.js")] }
  engine := sampleEngine
  readFileSync := fun _ => none

/-- The module state of `devEnv`. -/
def devModule : ModuleState where
  isSSREnabled := true
  publicPath := "/"
  APP_JS := "app.js"
  indexHtml := ""
  s := some sampleEngine
  manifest := some [("runtime.js", "runtime.1.js"), ("app.js", "app.1.js")]
  styleLinks := "<link href=\"/app.css\" rel=\"stylesheet\">"
  manifestInlineScript := "<script type=\"text/javascript\" src=\"/runtime.1.js\"></script>"

/-- The letter `a` 16304 times. -/
def pad : List Char := List.replicate 16304 'a'

/-- Initial data as the `/github` route passes it, with a long string that
ends in U+1F600: in the tail of the streamed document the two code units of
that character are the 16384th and the 16385th. -/
def longData : JSValue :=
  .obj (.cons "github" (.str (String.mk (pad ++ [Char.ofNat 128512]))) .nil)

/-- The `after` template of `devModule` for `longData` and no module scripts,
from the quote that closes the string of the data on. -/
def longTail : String :=
  "\"\x7d</script>\n        <script type=\"text/javascript\" src=\"/runtime.1.js\"></script>" ++
    "\n        \n        <script type=\"text/javascript\" src=\"/app.1.js\"></script>" ++
    "\n      </body>\n    </html>\n  "

/-- A production build with SSR enabled. -/
def prodEnv : Env where
  isSSREnabled := true
  isHMREnabled := false
  DEV_MODE := false
  publicPath := "/"
  RUNTIME_JS := "runtime.js"
  APP_JS := "app.js"
  groupedManifest :=
    { styles := some ["app.css"],
      manifest := [("runtime.js", "runtime.1.js"), ("app.js", "app.1.js")] }
  engine := sampleEngine
  readFileSync := fun path =>
    if path = "../build/app/runtime.1.js" then some "var r=1;" else none

/-- The module state of `prodEnv`. -/
def prodModule : ModuleState where
  isSSREnabled := true
  publicPath := "/"
  APP_JS := "app.js"
  indexHtml := ""
  s := some sampleEngine
  manifest := some [("runtime.js", "runtime.1.js"), ("app.js", "app.1.js")]
  styleLinks := "<link href=\"/app.css\" rel=\"stylesheet\">"
  manifestInlineScript := "<script type=\"text/javascript\">var r=1;</script>"

/-- A build without SSR and without hot reloading whose `index.html` cannot
be read. -/
def staticMissingEnv : Env where
  isSSREnabled := false
  isHMREnabled := false
  DEV_MODE := false
  publicPath := "/"
  RUNTIME_JS := "runtime.js"
  APP_JS := "app.js"
  groupedManifest := { styles := none, manifest := [] }
  engine := sampleEngine
  readFileSync := fun _ => none

/-- A build without SSR whose `index.html` is there. -/
def staticEnv : Env where
  isSSREnabled := false
  isHMREnabled := false
  DEV_MODE := false
  publicPath := "/"
  RUNTIME_JS := "runtime.js"
  APP_JS := "app.js"
  groupedManifest := { styles := none, manifest := [] }
  engine := sampleEngine
  readFileSync := fun path =>
    if path = "../build/app/index.html" then some "<html>static</html>" else none

/-- The module state of `staticEnv`. -/
def staticModule : ModuleState where
  isSSREnabled := false
  publicPath := "/"
  APP_JS := "app.js"
  indexHtml := "<html>static</html>"
  s := none
  manifest := none
  styleLinks := ""
  manifestInlineScript := ""

end Routes

/-! # Theorems -/

namespace Routes

/-! ## Traces -/

theorem emit_trace (ctx : Ctx) (es : List Effect) : (ctx.emit es).trace = ctx.trace ++ es := rfl

theorem enter_trace (ctx : Ctx) (p : Phase) : (ctx.enter p).trace = ctx.trace ++ [.enter p] := rfl

theorem join_empty_data (l : List String) : (join "" l).data = (l.map String.data).flatten := by
  induction l with
  | nil => rfl
  | cons t ts ih =>
    cases ts with
    | nil => simp [join]
    | cons u us => simp [join, ih] at *

theorem join_empty_append (a b : List String) : join "" (a ++ b) = join "" a ++ join "" b := by
  apply String.ext
  simp [join_empty_data]

theorem join_empty_cons (a : String) (b : List String) : join "" (a :: b) = a ++ join "" b := by
  apply String.ext
  simp [join_empty_data]

theorem fromString_fate (text : String) : (fromString text).fate = .ended := rfl

theorem writesBeforeEnd_writes (cs : List String) (es : List Effect) :
    writesBeforeEnd (cs.map Effect.write ++ es) = cs ++ writesBeforeEnd es := by
  induction cs with
  | nil => rfl
  | cons c cs ih => simp [writesBeforeEnd, ih]

theorem endCount_append (a b : List Effect) : endCount (a ++ b) = endCount a + endCount b := by
  induction a with
  | nil => simp [endCount]
  | cons e es ih => cases e <;> simp [endCount, ih]; omega

theorem endCount_writes (cs : List String) : endCount (cs.map Effect.write) = 0 := by
  induction cs with
  | nil => rfl
  | cons c cs ih => simp [endCount, ih]

theorem phasesOf_append (a b : List Effect) : phasesOf (a ++ b) = phasesOf a ++ phasesOf b := by
  induction a with
  | nil => simp [phasesOf]
  | cons e es ih => cases e <;> simp [phasesOf, ih]

theorem phasesOf_writes (cs : List String) : phasesOf (cs.map Effect.write) = [] := by
  induction cs with
  | nil => rfl
  | cons c cs ih => simp [phasesOf, ih]

theorem lookups_append (a b : List Effect) : lookups (a ++ b) = lookups a ++ lookups b := by
  induction a with
  | nil => simp [lookups]
  | cons e es ih => cases e <;> simp [lookups, ih]

theorem lookups_writes (cs : List String) : lookups (cs.map Effect.write) = [] := by
  induction cs with
  | nil => rfl
  | cons c cs ih => simp [lookups, ih]

/-! ## Module initialisation -/

theorem init_ssr (env : Env) (m : ModuleState) (h : init env = .ok m)
    (hs : env.isSSREnabled = true) :
    m.isSSREnabled = true ∧ m.indexHtml = "" ∧ m.s = some env.engine ∧
      m.manifest = some env.groupedManifest.manifest ∧ m.publicPath = env.publicPath ∧
      m.APP_JS = env.APP_JS := by
  unfold init at h
  simp only [hs, if_true] at h
  split at h
  · split at h
    · cases h
    · cases h; simp
  · cases h; simp

theorem lookupScripts_ssr (m : ModuleState) (s : SSR) (hs : m.s = some s) (extra : Extra) :
    ∃ scripts called, lookupScripts m extra = .ok (scripts, called) ∧
      (∀ modules, extra.modules = some modules →
        scripts = s.getRenderedBundleScripts modules ∧
          called = [.getRenderedBundleScripts modules]) ∧
      (extra.modules = none → scripts = [] ∧ called = []) := by
  cases hmod : extra.modules with
  | none => exact ⟨[], [], by simp [lookupScripts, hmod], by simp, by simp⟩
  | some modules =>
    exact ⟨_, _, by simp [lookupScripts, hmod, hs]; exact ⟨rfl, rfl⟩, by simp, by simp⟩

theorem after_ssr (m : ModuleState) (manifest : List (String × String))
    (hm : m.manifest = some manifest) (extra : Extra) (scripts : List String) :
    after m extra scripts = .ok ("</div>\n    " ++ dataScriptOpen ++ initialDataText extra ++
      "</script>\n        " ++ m.manifestInlineScript ++
      "\n        " ++ arrayToString scripts ++
      "\n        " ++ appScriptOpen ++ (m.publicPath ++ jsString (manifest.lookup m.APP_JS)) ++
      docClose) := by
  simp [after, appSrc, hm]

/-! ## The streaming session -/

theorem genHtmlStream_ended_trace (m : ModuleState) (extra : Extra)
    (scripts : List String) (called : List Effect) (tail : String)
    (hl : lookupScripts m extra = .ok (scripts, called))
    (ha : after m extra scripts = .ok tail)
    (chunks : List String) (ctx : Ctx) :
    (genHtmlStream m ⟨chunks, .ended⟩ extra ctx).trace =
      ctx.trace ++ ([.write (before m extra), .enter .HeadSent, .enter .MarkupStreaming] ++
        chunks.map Effect.write ++
        [.onEnd "nodeStreamFromReact", .log "nodeStreamFromReact end", .enter .TailPending] ++
        called ++ [.enter .TailStreaming] ++
        (fromString tail).chunks.map Effect.write ++
        [.onEnd "afterStream", .log "afterStream done", .resEnd, .enter .Ended]) := by
  simp [genHtmlStream, markupOnEnd, pipe, afterStreamOnEnd, hl, ha,
    emit_trace, enter_trace, Ctx.emit, Ctx.enter, fromString]

theorem genHtmlStream_errored_trace (m : ModuleState) (extra : Extra)
    (chunks : List String) (e : String) (ctx : Ctx) :
    (genHtmlStream m ⟨chunks, .errored e⟩ extra ctx).trace =
      ctx.trace ++ ([.write (before m extra), .enter .HeadSent, .enter .MarkupStreaming] ++
        chunks.map Effect.write ++ [.onError "nodeStreamFromReact"]) := by
  simp [genHtmlStream, pipe, emit_trace, enter_trace, Ctx.emit, Ctx.enter]

/-! ## Chunks cut by code units -/

theorem char_not_surrogate (c : Char) : c.toNat < 55296 ∨ 57343 < c.toNat ∧ c.toNat < 1114112 := by
  have h := c.valid
  simp only [UInt32.isValidChar, Nat.isValidChar] at h
  exact h

theorem utf8Text_plain (u : Nat) (us : List Nat) (h1 : isHighSurrogate u = false)
    (h2 : isLowSurrogate u = false) : utf8Text (u :: us) = Char.ofNat u :: utf8Text us := by
  rw [utf8Text.eq_def]
  simp only [h1, h2, Bool.false_eq_true, if_false]

theorem utf8Text_low (u : Nat) (us : List Nat) (h1 : isHighSurrogate u = false)
    (h2 : isLowSurrogate u = true) : utf8Text (u :: us) = replacement :: utf8Text us := by
  rw [utf8Text.eq_def]
  simp only [h1, h2, Bool.false_eq_true, if_false, if_true]

theorem utf8Text_pair (u l : Nat) (us : List Nat) (h1 : isHighSurrogate u = true)
    (h2 : isLowSurrogate l = true) :
    utf8Text (u :: l :: us) =
      Char.ofNat (65536 + (u - 55296) * 1024 + (l - 56320)) :: utf8Text us := by
  rw [utf8Text.eq_def]
  simp only [h1, h2, if_true]

theorem utf8Text_high_last (u : Nat) (h1 : isHighSurrogate u = true) :
    utf8Text [u] = [replacement] := by
  rw [utf8Text.eq_def]
  simp only [h1, if_true]

theorem utf8Text_units (c : Char) (rest : List Nat) :
    utf8Text (utf16Units c ++ rest) = c :: utf8Text rest := by
  have hv := char_not_surrogate c
  unfold utf16Units
  split
  · rename_i hlt
    have h1 : isHighSurrogate c.toNat = false := by
      simp only [isHighSurrogate, Bool.and_eq_false_imp, decide_eq_true_eq, decide_eq_false_iff_not]
      omega
    have h2 : isLowSurrogate c.toNat = false := by
      simp only [isLowSurrogate, Bool.and_eq_false_imp, decide_eq_true_eq, decide_eq_false_iff_not]
      omega
    simp [utf8Text_plain _ _ h1 h2, Char.ofNat_toNat]
  · rename_i hge
    have hlt : c.toNat < 1114112 := by omega
    have h1 : isHighSurrogate (55296 + (c.toNat - 65536) / 1024) = true := by
      simp only [isHighSurrogate, Bool.and_eq_true, decide_eq_true_eq]
      omega
    have h2 : isLowSurrogate (56320 + (c.toNat - 65536) % 1024) = true := by
      simp only [isLowSurrogate, Bool.and_eq_true, decide_eq_true_eq]
      omega
    have h3 : 65536 + (55296 + (c.toNat - 65536) / 1024 - 55296) * 1024 +
        (56320 + (c.toNat - 65536) % 1024 - 56320) = c.toNat := by omega
    simp only [List.cons_append, List.nil_append, utf8Text_pair _ _ _ h1 h2, h3,
      Char.ofNat_toNat]

theorem utf8Text_utf16_append (l : List Char) (rest : List Nat) :
    utf8Text (utf16 l ++ rest) = l ++ utf8Text rest := by
  induction l with
  | nil => rfl
  | cons c cs ih => simp [utf16, utf8Text_units, ih]

theorem utf8Text_utf16 (l : List Char) : utf8Text (utf16 l) = l := by
  have := utf8Text_utf16_append l []
  simpa [utf8Text] using this

theorem utf16_append (a b : List Char) : utf16 (a ++ b) = utf16 a ++ utf16 b := by
  induction a with
  | nil => rfl
  | cons c cs ih => simp [utf16, ih]

theorem utf16_length_bmp (l : List Char) (h : ∀ c ∈ l, c.toNat < 65536) :
    (utf16 l).length = l.length := by
  induction l with
  | nil => rfl
  | cons c cs ih =>
    have hc := h c (by simp)
    simp [utf16, utf16Units, hc, ih (fun d hd => h d (by simp [hd]))]

theorem sliceChunks_nil (size fuel : Nat) : sliceChunks size fuel [] = [] := by
  cases fuel <;> simp [sliceChunks]

/-- A character above U+FFFF whose two code units lie on either side of the
first cut reaches the sink as two replacement characters. -/
theorem fromString_cut (P Q : List Char) (c : Char) (hc : 65536 ≤ c.toNat)
    (hP : (utf16 P).length + 1 = highWaterMark)
    (hQ : (utf16 Q).length + 1 ≤ highWaterMark) :
    (fromString (String.mk (P ++ c :: Q))).chunks =
      [String.mk (P ++ [replacement]), String.mk (replacement :: Q)] := by
  have hv := char_not_surrogate c
  have hlt : c.toNat < 1114112 := by omega
  have hu : utf16 (P ++ c :: Q) = utf16 P ++ (55296 + (c.toNat - 65536) / 1024) ::
      (56320 + (c.toNat - 65536) % 1024) :: utf16 Q := by
    rw [utf16_append]
    simp [utf16, utf16Units, Nat.not_lt.mpr hc]
  have h1 : isHighSurrogate (55296 + (c.toNat - 65536) / 1024) = true := by
    simp only [isHighSurrogate, Bool.and_eq_true, decide_eq_true_eq]
    omega
  have h2 : isLowSurrogate (56320 + (c.toNat - 65536) % 1024) = true := by
    simp only [isLowSurrogate, Bool.and_eq_true, decide_eq_true_eq]
    omega
  have h3 : isHighSurrogate (56320 + (c.toNat - 65536) % 1024) = false := by
    simp only [isHighSurrogate, Bool.and_eq_false_imp, decide_eq_true_eq,
      decide_eq_false_iff_not]
    omega
  generalize hhi : 55296 + (c.toNat - 65536) / 1024 = hi at *
  generalize hlo : 56320 + (c.toNat - 65536) % 1024 = lo at *
  have hlen : (utf16 P ++ hi :: lo :: utf16 Q).length = ((utf16 P).length + (utf16 Q).length) + 2 := by
    simp; omega
  have htake : (utf16 P ++ hi :: lo :: utf16 Q).take highWaterMark = utf16 P ++ [hi] := by
    rw [← hP, List.take_append_eq_append_take]
    simp
  have hdrop : (utf16 P ++ hi :: lo :: utf16 Q).drop highWaterMark = lo :: utf16 Q := by
    rw [← hP, List.drop_append_eq_append_drop]
    simp
  have htake2 : (lo :: utf16 Q).take highWaterMark = lo :: utf16 Q := by
    apply List.take_of_length_le
    simp; omega
  have hdrop2 : (lo :: utf16 Q).drop highWaterMark = [] := by
    apply List.drop_of_length_le
    simp; omega
  simp only [fromString, hu, hlen]
  rw [sliceChunks]
  simp only [htake, hdrop]
  rw [sliceChunks]
  simp only [htake2, hdrop2, sliceChunks_nil]
  have e1 : utf8Text (utf16 P ++ [hi]) = P ++ [replacement] := by
    rw [utf8Text_utf16_append, utf8Text_high_last _ h1]
  have e2 : utf8Text (lo :: utf16 Q) = replacement :: Q := by
    rw [utf8Text_low _ _ h3 h2, utf8Text_utf16]
  simp [e1, e2]

theorem utf16_bmp (l : List Char) (h : ∀ c ∈ l, c.toNat < 65536) :
    utf16 l = l.map Char.toNat := by
  induction l with
  | nil => rfl
  | cons c cs ih =>
    have hc := h c (by simp)
    simp [utf16, utf16Units, hc, ih (fun d hd => h d (by simp [hd]))]

theorem sliceChunks_bmp (size : Nat) (hsize : 0 < size) :
    ∀ (fuel : Nat) (l : List Char), (∀ c ∈ l, c.toNat < 65536) → l.length ≤ fuel →
      ((sliceChunks size fuel (utf16 l)).map String.data).flatten = l := by
  intro fuel
  induction fuel with
  | zero => intro l _ hl; simp at hl; simp [sliceChunks, hl]
  | succ n ih =>
    intro l hb hl
    unfold sliceChunks
    split
    · rename_i h0
      rw [utf16_length_bmp l hb] at h0
      simp at h0
      simp [h0]
    · rename_i h0
      rw [utf16_length_bmp l hb] at h0
      have hpos : 0 < l.length := by omega
      have htake : (utf16 l).take size = utf16 (l.take size) := by
        rw [utf16_bmp l hb, utf16_bmp (l.take size) (fun c hc => hb c (List.mem_of_mem_take hc)),
          List.map_take]
      have hdrop : (utf16 l).drop size = utf16 (l.drop size) := by
        rw [utf16_bmp l hb, utf16_bmp (l.drop size) (fun c hc => hb c (List.mem_of_mem_drop hc)),
          List.map_drop]
      simp only [List.map_cons, List.flatten_cons, htake, hdrop, utf8Text_utf16]
      rw [ih (l.drop size) (fun c hc => hb c (List.mem_of_mem_drop hc)) (by simp; omega)]
      simp

/-- A tail without characters above U+FFFF reaches the sink as it is. -/
theorem fromString_join_bmp (text : String) (h : ∀ c ∈ text.data, c.toNat < 65536) :
    join "" (fromString text).chunks = text := by
  apply String.ext
  rw [join_empty_data]
  exact sliceChunks_bmp _ (by decide) _ _ h (by rw [utf16_length_bmp _ h])

/-- The fuel of `fromString` is enough: more fuel gives the same chunks. -/
theorem sliceChunks_fuel (size : Nat) (hsize : 0 < size) :
    ∀ (fuel more : Nat) (string : List Nat), string.length ≤ fuel →
      sliceChunks size (fuel + more) string = sliceChunks size fuel string := by
  intro fuel
  induction fuel with
  | zero =>
    intro more string hl
    have : string = [] := List.length_eq_zero.1 (by omega)
    subst this
    cases more <;> simp [sliceChunks]
  | succ n ih =>
    intro more string hl
    rw [show n + 1 + more = (n + more) + 1 by omega]
    unfold sliceChunks
    split
    · rfl
    · rename_i h0
      rw [ih more (string.drop size) (by simp; omega)]

theorem writesBeforeEnd_append (a b : List Effect) (h : endCount a = 0) :
    writesBeforeEnd (a ++ b) = writesBeforeEnd a ++ writesBeforeEnd b := by
  induction a with
  | nil => rfl
  | cons e es ih => cases e <;> simp_all [writesBeforeEnd, endCount]

theorem writesBeforeEnd_map_write (cs : List String) :
    writesBeforeEnd (cs.map Effect.write) = cs := by
  have := writesBeforeEnd_writes cs []
  simpa [writesBeforeEnd] using this

theorem lookupScripts_called (m : ModuleState) (extra : Extra) (scripts : List String)
    (called : List Effect) (hl : lookupScripts m extra = .ok (scripts, called)) :
    writesBeforeEnd called = [] ∧ endCount called = 0 ∧ phasesOf called = [] := by
  unfold lookupScripts at hl
  split at hl
  · split at hl
    · cases hl
      exact ⟨rfl, rfl, rfl⟩
    · cases hl
  · cases hl
    exact ⟨rfl, rfl, rfl⟩

theorem streaming_pre_writes (head tail : String) (chunks : List String) (called : List Effect)
    (hcw : writesBeforeEnd called = []) (hce : endCount called = 0) :
    writesBeforeEnd ([.write head, .enter .HeadSent, .enter .MarkupStreaming] ++
        chunks.map Effect.write ++
        [.onEnd "nodeStreamFromReact", .log "nodeStreamFromReact end", .enter .TailPending] ++
        called ++ [.enter .TailStreaming] ++
        (fromString tail).chunks.map Effect.write) =
      head :: (chunks ++ (fromString tail).chunks) := by
  rw [writesBeforeEnd_append, writesBeforeEnd_append, writesBeforeEnd_append,
    writesBeforeEnd_append, writesBeforeEnd_append, hcw, writesBeforeEnd_map_write,
    writesBeforeEnd_map_write]
  · simp [writesBeforeEnd]
  all_goals simp [endCount_append, endCount_writes, hce, endCount]

theorem after_ssr_ok (m : ModuleState) (manifest : List (String × String))
    (hm : m.manifest = some manifest) (extra : Extra) (scripts : List String) :
    ∃ tail, after m extra scripts = .ok tail :=
  ⟨_, after_ssr m manifest hm extra scripts⟩

theorem genHtmlStream_writes (m : ModuleState) (extra : Extra)
    (scripts : List String) (called : List Effect) (tail : String)
    (hl : lookupScripts m extra = .ok (scripts, called))
    (ha : after m extra scripts = .ok tail)
    (chunks : List String) (ctx : Ctx) :
    ∃ added, (genHtmlStream m ⟨chunks, .ended⟩ extra ctx).trace = ctx.trace ++ added ∧
      writesBeforeEnd added = before m extra :: (chunks ++ (fromString tail).chunks) := by
  obtain ⟨hcw, hce, _⟩ := lookupScripts_called m extra scripts called hl
  refine ⟨_, genHtmlStream_ended_trace m extra _ _ _ hl ha chunks ctx, ?_⟩
  rw [writesBeforeEnd_append, streaming_pre_writes _ _ _ _ hcw hce]
  · simp [writesBeforeEnd]
  · simp [endCount_append, endCount_writes, hce, endCount]

/-- When the `after` template holds no character above U+FFFF, what is written
to the sink before it is ended is `before`, the chunks of the markup and
`after`, in this order. -/
theorem genHtmlStream_writes_bmp (m : ModuleState) (extra : Extra)
    (scripts : List String) (called : List Effect) (tail : String)
    (hl : lookupScripts m extra = .ok (scripts, called))
    (ha : after m extra scripts = .ok tail)
    (hbmp : ∀ c ∈ tail.data, c.toNat < 65536)
    (chunks : List String) (ctx : Ctx) :
    ∃ added, (genHtmlStream m ⟨chunks, .ended⟩ extra ctx).trace = ctx.trace ++ added ∧
      join "" (writesBeforeEnd added) = before m extra ++ join "" chunks ++ tail := by
  obtain ⟨added, ht, hw⟩ := genHtmlStream_writes m extra scripts called tail hl ha chunks ctx
  refine ⟨added, ht, ?_⟩
  rw [hw, join_empty_cons, join_empty_append, fromString_join_bmp tail hbmp,
    String.append_assoc]

theorem pad_length : pad.length = 16304 := by
  unfold pad
  rw [List.length_replicate]

theorem pad_letters : ∀ c ∈ pad, c = 'a' := by
  intro c hc
  unfold pad at hc
  exact List.eq_of_mem_replicate hc

theorem quoteBody_append (a b : List Char) : JSON.quoteBody (a ++ b) = JSON.quoteBody a ++ JSON.quoteBody b := by
  induction a with
  | nil => rfl
  | cons c cs ih => simp [JSON.quoteBody, ih]

theorem quoteBody_letters (l : List Char) (h : ∀ c ∈ l, c = 'a') : JSON.quoteBody l = l := by
  induction l with
  | nil => rfl
  | cons c cs ih =>
    have hc : c = 'a' := h c (by simp)
    subst hc
    have hq : JSON.quoteChar 'a' = ['a'] := by decide
    simp [JSON.quoteBody, hq, ih (fun d hd => h d (by simp [hd]))]

theorem stringify_github (p : List Char) (hp : ∀ c ∈ p, c = 'a') :
    JSON.stringify (.obj (.cons "github" (.str (String.mk (p ++ [Char.ofNat 128512]))) .nil)) =
      some (String.mk ("\x7b\"github\":\"".data ++ p ++ Char.ofNat 128512 :: "\"\x7d".data)) := by
  have hq : JSON.quoteBody (p ++ [Char.ofNat 128512]) = p ++ [Char.ofNat 128512] := by
    rw [quoteBody_append, quoteBody_letters p hp]
    have : JSON.quoteBody [Char.ofNat 128512] = [Char.ofNat 128512] := by decide
    rw [this]
  have hk : JSON.quoteBody "github".data = "github".data := by decide
  have hd : Char.ofNat 34 = '"' := by decide
  simp only [JSON.stringify, JSON.stringifyValue, JSON.stringifyMembers,
    JSON.commaJoin, JSON.quote, hq, hk, JSON.dquote, hd]
  simp

theorem append_assoc8 (x a b c d e f g h : String) :
    x ++ a ++ b ++ c ++ d ++ e ++ f ++ g ++ h = x ++ (a ++ b ++ c ++ d ++ e ++ f ++ g ++ h) := by
  simp only [String.append_assoc]

set_option maxRecDepth 100000 in
theorem after_github (p : List Char) (hp : ∀ c ∈ p, c = 'a') :
    after devModule
        { initialData := .obj (.cons "github" (.str (String.mk (p ++ [Char.ofNat 128512]))) .nil) }
        [] =
      .ok (String.mk (("</div>\n    " ++ dataScriptOpen ++ "\x7b\"github\":\"").data ++ p ++
        Char.ofNat 128512 :: longTail.data)) := by
  have hrest : "</script>\n        " ++ devModule.manifestInlineScript ++ "\n        " ++
      arrayToString [] ++ "\n        " ++ appScriptOpen ++
      (devModule.publicPath ++
        jsString (List.lookup devModule.APP_JS
          [("runtime.js", "runtime.1.js"), ("app.js", "app.1.js")])) ++ docClose =
      "</script>\n        <script type=\"text/javascript\" src=\"/runtime.1.js\"></script>\n        \n        <script type=\"text/javascript\" src=\"/app.1.js\"></script>\n      </body>\n    </html>\n  " := by decide
  have hq : "\"\x7d".data ++ "</script>\n        <script type=\"text/javascript\" src=\"/runtime.1.js\"></script>\n        \n        <script type=\"text/javascript\" src=\"/app.1.js\"></script>\n      </body>\n    </html>\n  ".data = longTail.data := by decide
  rw [after_ssr devModule _ rfl, append_assoc8, hrest]
  have ht : initialDataText
      { initialData := .obj (.cons "github" (.str (String.mk (p ++ [Char.ofNat 128512]))) .nil) } =
      String.mk ("\x7b\"github\":\"".data ++ p ++ Char.ofNat 128512 :: "\"\x7d".data) := by
    have := stringify_github p hp
    simp only [initialDataText, JSValue.orEmptyObject, JSValue.truthy, if_true, this, jsString]
  rw [ht]
  congr 1
  apply String.ext
  simp only [String.data_append, List.append_assoc, List.cons_append, hq]

set_option maxRecDepth 100000 in
theorem fromString_github (p : List Char) (hp : ∀ c ∈ p, c = 'a') (hlen : p.length = 16304) :
    (fromString (String.mk (("</div>\n    " ++ dataScriptOpen ++ "\x7b\"github\":\"").data ++ p ++
        Char.ofNat 128512 :: longTail.data))).chunks =
      [String.mk (("</div>\n    " ++ dataScriptOpen ++ "\x7b\"github\":\"").data ++ p ++ [replacement]),
        String.mk (replacement :: longTail.data)] := by
  have h1 : ∀ c ∈ ("</div>\n    " ++ dataScriptOpen ++ "\x7b\"github\":\"").data, c.toNat < 65536 := by decide
  have h2 : ∀ c ∈ longTail.data, c.toNat < 65536 := by decide
  have hl1 : ("</div>\n    " ++ dataScriptOpen ++ "\x7b\"github\":\"").data.length = 79 := by decide
  have hl2 : longTail.data.length + 1 ≤ highWaterMark := by decide
  have hb : ∀ c ∈ ("</div>\n    " ++ dataScriptOpen ++ "\x7b\"github\":\"").data ++ p, c.toNat < 65536 := by
    intro c hc
    rcases List.mem_append.1 hc with h | h
    · exact h1 c h
    · rw [hp c h]; decide
  apply fromString_cut _ _ _ (by decide)
  · rw [utf16_length_bmp _ hb, List.length_append, hl1, hlen]
    rfl
  · rw [utf16_length_bmp _ h2]
    exact hl2

theorem join_cut_ne (b m : String) (P Q : List Char) (r e : Char) :
    join "" [b, m, String.mk (P ++ [r]), String.mk (r :: Q)] ≠
      b ++ join "" [m] ++ String.mk (P ++ e :: Q) := by
  intro h
  have h3 := congrArg String.length h
  have h4 : (join "" ([] : List String)).length = 0 := rfl
  simp only [join_empty_cons, String.length_append, h4] at h3
  simp only [String.length, List.length_append, List.length_cons, List.length_nil] at h3
  omega

theorem github_cut (p : List Char) (hp : ∀ c ∈ p, c = 'a') (hlen : p.length = 16304)
    (data : JSValue)
    (hdata : data = .obj (.cons "github" (.str (String.mk (p ++ [Char.ofNat 128512]))) .nil)) :
    ∃ added,
      after devModule { initialData := data } [] =
        .ok (String.mk (("</div>\n    " ++ dataScriptOpen ++ "\x7b\"github\":\"").data ++ p ++
          Char.ofNat 128512 :: longTail.data)) ∧
      (genHtmlStream devModule ⟨["<div>A</div>"], .ended⟩ { initialData := data }
        { url := "/github" }).trace = ({ url := "/github" } : Ctx).trace ++ added ∧
      writesBeforeEnd added =
        [before devModule { initialData := data }, "<div>A</div>",
          String.mk (("</div>\n    " ++ dataScriptOpen ++ "\x7b\"github\":\"").data ++ p ++ [replacement]),
          String.mk (replacement :: longTail.data)] ∧
      join "" (writesBeforeEnd added) ≠
        before devModule { initialData := data } ++ join "" ["<div>A</div>"] ++
          String.mk (("</div>\n    " ++ dataScriptOpen ++ "\x7b\"github\":\"").data ++ p ++
            Char.ofNat 128512 :: longTail.data) := by
  subst hdata
  have ha := after_github p hp
  obtain ⟨added, ht, hw⟩ := genHtmlStream_writes devModule
    { initialData := .obj (.cons "github" (.str (String.mk (p ++ [Char.ofNat 128512]))) .nil) }
    [] [] _ rfl ha ["<div>A</div>"] { url := "/github" }
  rw [fromString_github p hp hlen] at hw
  refine ⟨added, ha, ht, hw, ?_⟩
  rw [hw]
  exact join_cut_ne _ _ _ _ _ _

/-- C1 on the code: the route `/github` streams a page whose initial data is
`\x7bgithub: s\x7d`, `s` being 16304 letters `a` and then U+1F600, and the
markup stream emits `<div>A</div>` and ends. What is written to the sink is
then `before ++ markup ++ after` only up to the 16383rd UTF-16 code unit of
`after`: the tail stream cuts `after` into pieces of 16384 code units, here
between the two code units of U+1F600, and each piece is written on its own,
so the sink receives U+FFFD twice where the template has U+1F600, and what was
written before the sink was ended is not `before ++ markup ++ after`. -/
theorem streaming_tail_cuts_character :
    ∃ added,
      after devModule { initialData := longData } [] =
        .ok (String.mk (("</div>\n    " ++ dataScriptOpen ++ "\x7b\"github\":\"").data ++ pad ++
          Char.ofNat 128512 :: longTail.data)) ∧
      (genHtmlStream devModule ⟨["<div>A</div>"], .ended⟩ { initialData := longData }
        { url := "/github" }).trace = ({ url := "/github" } : Ctx).trace ++ added ∧
      writesBeforeEnd added =
        [before devModule { initialData := longData }, "<div>A</div>",
          String.mk (("</div>\n    " ++ dataScriptOpen ++ "\x7b\"github\":\"").data ++ pad ++
            [replacement]),
          String.mk (replacement :: longTail.data)] ∧
      join "" (writesBeforeEnd added) ≠
        before devModule { initialData := longData } ++ join "" ["<div>A</div>"] ++
          String.mk (("</div>\n    " ++ dataScriptOpen ++ "\x7b\"github\":\"").data ++ pad ++
            Char.ofNat 128512 :: longTail.data) :=
  github_cut pad pad_letters pad_length longData rfl

/-- C2: when the markup stream ends normally the phases are entered in the
order HeadSent, MarkupStreaming, TailPending, TailStreaming, Ended, each
once; `res.end()` is called once, as the last call, in the `end` listener of
the tail stream and after every chunk of the tail was written; nothing before
that listener ends the sink. -/
theorem streaming_phases_in_order (env : Env) (m : ModuleState)
    (hinit : init env = .ok m) (hssr : env.isSSREnabled = true)
    (chunks : List String) (extra : Extra) (ctx : Ctx) :
    ∃ scripts called tail pre,
      lookupScripts m extra = .ok (scripts, called) ∧
      after m extra scripts = .ok tail ∧
      (genHtmlStream m ⟨chunks, .ended⟩ extra ctx).trace =
        ctx.trace ++ (pre ++
          [.onEnd "afterStream", .log "afterStream done", .resEnd, .enter .Ended]) ∧
      phasesOf (pre ++ [.onEnd "afterStream", .log "afterStream done", .resEnd, .enter .Ended]) =
        [.HeadSent, .MarkupStreaming, .TailPending, .TailStreaming, .Ended] ∧
      endCount (pre ++ [.onEnd "afterStream", .log "afterStream done", .resEnd, .enter .Ended])
        = 1 ∧
      endCount pre = 0 ∧
      writesBeforeEnd pre = before m extra :: (chunks ++ (fromString tail).chunks) := by
  obtain ⟨_, _, hs, hm, _, _⟩ := init_ssr env m hinit hssr
  obtain ⟨scripts, called, hl, _, _⟩ := lookupScripts_ssr m env.engine hs extra
  obtain ⟨tail, ha⟩ := after_ssr_ok m _ hm extra scripts
  obtain ⟨hcw, hce, hcp⟩ := lookupScripts_called m extra scripts called hl
  refine ⟨scripts, called, tail,
    [.write (before m extra), .enter .HeadSent, .enter .MarkupStreaming] ++
        chunks.map Effect.write ++
        [.onEnd "nodeStreamFromReact", .log "nodeStreamFromReact end", .enter .TailPending] ++
        called ++ [.enter .TailStreaming] ++
        (fromString tail).chunks.map Effect.write, hl, ha, ?_, ?_, ?_, ?_, ?_⟩
  · rw [genHtmlStream_ended_trace m extra _ _ _ hl ha chunks ctx]
  · simp [phasesOf_append, phasesOf_writes, hcp, phasesOf]
  · simp [endCount_append, endCount_writes, hce, endCount]
  · simp [endCount_append, endCount_writes, hce, endCount]
  · exact streaming_pre_writes _ _ _ _ hcw hce

/-- C2 at the development build: one chunk, one module. -/
theorem streaming_phases_in_order_witness :
    phasesOf (genHtmlStream devModule ⟨["<div>A</div>"], .ended⟩ { modules := some ["Widget"] }
        { url := "/" }).trace =
      [.HeadSent, .MarkupStreaming, .TailPending, .TailStreaming, .Ended] ∧
    endCount (genHtmlStream devModule ⟨["<div>A</div>"], .ended⟩ { modules := some ["Widget"] }
        { url := "/" }).trace = 1 := by
  obtain ⟨_, _, _, _, _, _, h, hp, he, _, _⟩ :=
    streaming_phases_in_order devEnv devModule rfl rfl ["<div>A</div>"]
      { modules := some ["Widget"] } { url := "/" }
  rw [h]
  exact ⟨hp, he⟩

/-- C3 (as the code has it): when the markup stream emits `error` instead of
`end`, no listener of `genHtmlStream` handles it: the head and the chunks
emitted so far are all that is written, the tail phases are never entered,
the module lookup is not made and `res.end()` is never called. -/
theorem streaming_error_never_ends_sink (m : ModuleState) (extra : Extra)
    (chunks : List String) (e : String) (ctx : Ctx) :
    ∃ added,
      (genHtmlStream m ⟨chunks, .errored e⟩ extra ctx).trace = ctx.trace ++ added ∧
      writesBeforeEnd added = before m extra :: chunks ∧
      endCount added = 0 ∧
      phasesOf added = [.HeadSent, .MarkupStreaming] ∧
      lookups added = [] ∧
      (genHtmlStream m ⟨chunks, .errored e⟩ extra ctx).unhandled = some (.streamError e) := by
  refine ⟨_, genHtmlStream_errored_trace m extra chunks e ctx, ?_, ?_, ?_, ?_, ?_⟩
  · simp [writesBeforeEnd, writesBeforeEnd_writes]
  · simp [endCount_append, endCount_writes, endCount]
  · simp [phasesOf_append, phasesOf_writes, phasesOf]
  · simp [lookups_append, lookups_writes, lookups]
  · simp [genHtmlStream, pipe, Ctx.emit, Ctx.enter]

/-- C3 fails on the code: a markup stream that emits one chunk and then
`error` leaves the sink without the tail and without a call of `res.end()`. -/
theorem streaming_error_counterexample :
    endCount (genHtmlStream devModule ⟨["<div>A"], .errored "boom"⟩ {} { url := "/" }).trace ≠ 1 ∧
    writesBeforeEnd (genHtmlStream devModule ⟨["<div>A"], .errored "boom"⟩ {} { url := "/" }).trace
      = [before devModule {}, "<div>A"] ∧
    phasesOf (genHtmlStream devModule ⟨["<div>A"], .errored "boom"⟩ {} { url := "/" }).trace
      = [.HeadSent, .MarkupStreaming] :=
  ⟨by rw [show endCount (genHtmlStream devModule ⟨["<div>A"], .errored "boom"⟩ {}
      { url := "/" }).trace = 0 from rfl]; decide, rfl, rfl⟩

/-! ## The two assemblers -/

theorem genHtml_ssr (m : ModuleState) (manifest : List (String × String))
    (hm : m.manifest = some manifest) (hidx : m.indexHtml = "")
    (html : Option String) (extra : Extra) :
    genHtml m html extra = .ok (docOpen ++ titleOf extra ++ "</title>\n        " ++ m.styleLinks ++
        "\n      </head>\n      <body>\n        <div id=\"app\">" ++ jsString html ++
        "</div>\n        " ++ dataScriptOpen ++ initialDataText extra ++
        "</script>\n        " ++ m.manifestInlineScript ++
        "\n        " ++ join "" (extra.scripts.getD []) ++
        "\n        \n        " ++ appScriptOpen ++
        (m.publicPath ++ jsString (manifest.lookup m.APP_JS)) ++ docClose) := by
  simp [genHtml, appSrc, hm, hidx]

theorem join_mem (sep : String) (l : List String) (t : String) (h : t ∈ l) :
    ∃ a b, join sep l = a ++ t ++ b := by
  induction l with
  | nil => cases h
  | cons x xs ih =>
    cases xs with
    | nil =>
      simp at h
      subst h
      exact ⟨"", "", by simp [join]⟩
    | cons y ys =>
      rcases List.mem_cons.mp h with h | h
      · subst h
        exact ⟨"", sep ++ join sep (y :: ys), by simp [join, String.append_assoc]⟩
      · obtain ⟨a, b, hab⟩ := ih h
        exact ⟨x ++ sep ++ a, b, by simp [join, hab, String.append_assoc]⟩

theorem arrayToString_length (l : List String) (hl : l ≠ []) :
    (arrayToString l).length + 1 = (join "" l).length + l.length := by
  induction l with
  | nil => exact absurd rfl hl
  | cons x xs ih =>
    cases xs with
    | nil => simp [arrayToString, join]
    | cons y ys =>
      have ih := ih (by simp)
      simp only [arrayToString, join, String.length_append, List.length_cons] at ih ⊢
      have h1 : ",".length = 1 := rfl
      have h0 : "".length = 0 := rfl
      omega

theorem renderCalls_append (a b : List Effect) :
    renderCalls (a ++ b) = renderCalls a ++ renderCalls b := by
  induction a with
  | nil => simp [renderCalls]
  | cons e es ih => cases e <;> simp [renderCalls, ih]

theorem renderCalls_writes (cs : List String) : renderCalls (cs.map Effect.write) = [] := by
  induction cs with
  | nil => rfl
  | cons c cs ih => simp [renderCalls, ih]

theorem lookupScripts_renderCalls (m : ModuleState) (extra : Extra) (scripts : List String)
    (called : List Effect) (hl : lookupScripts m extra = .ok (scripts, called)) :
    renderCalls called = [] := by
  unfold lookupScripts at hl
  split at hl
  · split at hl
    · cases hl; rfl
    · cases hl
  · cases hl; rfl

theorem renderCalls_genHtmlStream (m : ModuleState) (stream : RenderStream) (extra : Extra)
    (ctx : Ctx) :
    renderCalls (genHtmlStream m stream extra ctx).trace = renderCalls ctx.trace := by
  obtain ⟨chunks, fate⟩ := stream
  cases fate with
  | errored e =>
    rw [genHtmlStream_errored_trace]
    simp [renderCalls_append, renderCalls_writes, renderCalls]
  | ended =>
    cases hl : lookupScripts m extra with
    | error e =>
      simp [genHtmlStream, markupOnEnd, pipe, Ctx.enter, hl, Ctx.emit, renderCalls_append,
        renderCalls_writes, renderCalls]
    | ok p =>
      obtain ⟨scripts, called⟩ := p
      have hc := lookupScripts_renderCalls m extra scripts called hl
      cases ha : after m extra scripts with
      | error e =>
        simp [genHtmlStream, markupOnEnd, pipe, Ctx.enter, hl, ha, Ctx.emit, renderCalls_append,
          renderCalls_writes, renderCalls, hc]
      | ok tail =>
        rw [genHtmlStream_ended_trace m extra scripts called tail hl ha]
        simp [renderCalls_append, renderCalls_writes, renderCalls, hc]

/-- C8: in streaming mode the lookup `s.getRenderedBundleScripts` is called
with `extra.modules` in the `end` listener of the markup stream, after every
markup chunk was written; the tail holds every script tag it returns (joined
by the array's string conversion) after `</div>`, the initial-data script and
the runtime script and before the app script. Without `extra.modules` the
lookup is not called and nothing stands between the runtime script and the
app script. -/
theorem module_scripts_in_tail (env : Env) (m : ModuleState)
    (hinit : init env = .ok m) (hssr : env.isSSREnabled = true)
    (chunks : List String) (extra : Extra) (ctx : Ctx) :
    ∃ scripts called tail,
      lookupScripts m extra = .ok (scripts, called) ∧
      after m extra scripts = .ok tail ∧
      tail = "</div>\n    " ++ dataScriptOpen ++ initialDataText extra ++
        "</script>\n        " ++ m.manifestInlineScript ++
        "\n        " ++ arrayToString scripts ++
        "\n        " ++ appScriptOpen ++
        (m.publicPath ++ jsString (env.groupedManifest.manifest.lookup m.APP_JS)) ++ docClose ∧
      (∀ t ∈ scripts, ∃ a b, arrayToString scripts = a ++ t ++ b) ∧
      (genHtmlStream m ⟨chunks, .ended⟩ extra ctx).trace =
        ctx.trace ++ ([.write (before m extra), .enter .HeadSent, .enter .MarkupStreaming] ++
          chunks.map Effect.write ++
          [.onEnd "nodeStreamFromReact", .log "nodeStreamFromReact end", .enter .TailPending] ++
          called ++ [.enter .TailStreaming] ++
          (fromString tail).chunks.map Effect.write ++
          [.onEnd "afterStream", .log "afterStream done", .resEnd, .enter .Ended]) ∧
      (∀ modules, extra.modules = some modules →
        scripts = env.engine.getRenderedBundleScripts modules ∧
          called = [.getRenderedBundleScripts modules]) ∧
      (extra.modules = none → scripts = [] ∧ called = [] ∧ arrayToString scripts = "") := by
  obtain ⟨_, _, hs, hm, _, _⟩ := init_ssr env m hinit hssr
  obtain ⟨scripts, called, hl, hsome, hnone⟩ := lookupScripts_ssr m env.engine hs extra
  have ha := after_ssr m _ hm extra scripts
  refine ⟨scripts, called, _, hl, ha, rfl, fun t ht => join_mem "," scripts t ht,
    genHtmlStream_ended_trace m extra _ _ _ hl ha chunks ctx, hsome, ?_⟩
  intro h
  obtain ⟨h1, h2⟩ := hnone h
  exact ⟨h1, h2, by rw [h1]; rfl⟩

/-- C8 at the scenario of the specification: the markup `<div>A</div>`, the
module `Widget`, the script tag `<script src=/w.js>`. -/
theorem module_scripts_in_tail_witness :
    ∃ tail,
      after devModule { modules := some ["Widget"] } ["<script src=/w.js>"] = .ok tail ∧
      tail = "</div>\n    " ++ dataScriptOpen ++ "\x7b\x7d" ++
        "</script>\n        " ++ devModule.manifestInlineScript ++
        "\n        " ++ "<script src=/w.js>" ++
        "\n        " ++ appScriptOpen ++ "/app.1.js" ++ docClose ∧
      lookups (genHtmlStream devModule ⟨["<div>A</div>"], .ended⟩
        { modules := some ["Widget"] } { url := "/" }).trace = [["Widget"]] := by
  obtain ⟨scripts, called, tail, _, ha, ht, _, htr, hsome, _⟩ :=
    module_scripts_in_tail devEnv devModule rfl rfl ["<div>A</div>"]
      { modules := some ["Widget"] } { url := "/" }
  obtain ⟨h1, h2⟩ := hsome ["Widget"] rfl
  subst h1 h2
  refine ⟨tail, ha, by rw [ht]; rfl, ?_⟩
  rw [htr]
  simp [lookups_append, lookups_writes, lookups]

/-- C10: `genHtml` joins `extra.scripts` with the empty separator; the tail
of `genHtmlStream` holds the string conversion of the array that
`s.getRenderedBundleScripts(extra.modules)` returns, which joins with a
comma. For the same list of n tags (n at least 1) the streamed region is
n - 1 characters longer, so the two regions differ for n at least 2 and are
the same text for n at most 1. -/
theorem module_scripts_sync_vs_stream (env : Env) (m : ModuleState)
    (hinit : init env = .ok m) (hssr : env.isSSREnabled = true)
    (html : Option String) (extra : Extra) (scripts : List String)
    (hscripts : extra.scripts = some scripts) :
    genHtml m html extra = .ok (docOpen ++ titleOf extra ++ "</title>\n        " ++ m.styleLinks ++
        "\n      </head>\n      <body>\n        <div id=\"app\">" ++ jsString html ++
        "</div>\n        " ++ dataScriptOpen ++ initialDataText extra ++
        "</script>\n        " ++ m.manifestInlineScript ++
        "\n        " ++ join "" scripts ++
        "\n        \n        " ++ appScriptOpen ++
        (m.publicPath ++ jsString (env.groupedManifest.manifest.lookup m.APP_JS)) ++ docClose) ∧
    after m extra scripts = .ok ("</div>\n    " ++ dataScriptOpen ++ initialDataText extra ++
        "</script>\n        " ++ m.manifestInlineScript ++
        "\n        " ++ join "," scripts ++
        "\n        " ++ appScriptOpen ++
        (m.publicPath ++ jsString (env.groupedManifest.manifest.lookup m.APP_JS)) ++ docClose) ∧
    (∀ modules, extra.modules = some modules →
      env.engine.getRenderedBundleScripts modules = scripts →
        lookupScripts m extra = .ok (scripts, [.getRenderedBundleScripts modules])) ∧
    (scripts ≠ [] → (join "," scripts).length = (join "" scripts).length + (scripts.length - 1)) ∧
    (2 ≤ scripts.length → join "," scripts ≠ join "" scripts) ∧
    (scripts.length ≤ 1 → join "," scripts = join "" scripts) := by
  obtain ⟨_, hidx, hs, hm, _, _⟩ := init_ssr env m hinit hssr
  have hlen : scripts ≠ [] →
      (join "," scripts).length = (join "" scripts).length + (scripts.length - 1) := by
    intro hne
    have := arrayToString_length scripts hne
    have hpos : 0 < scripts.length := List.length_pos.mpr hne
    unfold arrayToString at this
    omega
  refine ⟨?_, ?_, ?_, hlen, ?_, ?_⟩
  · rw [genHtml_ssr m _ hm hidx, hscripts]; rfl
  · rw [after_ssr m _ hm]; rfl
  · intro modules hmod heq
    simp [lookupScripts, hmod, hs, heq]
  · intro h2 heq
    have hne : scripts ≠ [] := by intro h; rw [h] at h2; simp at h2
    have := hlen hne
    rw [heq] at this
    omega
  · intro h1
    match scripts, h1 with
    | [], _ => rfl
    | [t], _ => rfl
    | _ :: _ :: _, h => simp at h

/-- C10 at two script tags: one comma in the streamed region, none in the
synchronous one. -/
theorem module_scripts_sync_vs_stream_witness :
    join "," ["<script src=/a.js>", "<script src=/b.js>"] =
      "<script src=/a.js>,<script src=/b.js>" ∧
    join "" ["<script src=/a.js>", "<script src=/b.js>"] =
      "<script src=/a.js><script src=/b.js>" ∧
    join "," ["<script src=/a.js>", "<script src=/b.js>"] ≠
      join "" ["<script src=/a.js>", "<script src=/b.js>"] :=
  ⟨rfl, rfl,
    (module_scripts_sync_vs_stream devEnv devModule rfl rfl (some "<div>A</div>")
      { scripts := some ["<script src=/a.js>", "<script src=/b.js>"] }
      ["<script src=/a.js>", "<script src=/b.js>"] rfl).2.2.2.2.1 (Nat.le_refl 2)⟩

/-- C5 on the code: with SSR disabled and `index.html` unreadable at startup,
`indexHtml` is the empty string and `manifest` is never assigned, and both GET
handlers throw a TypeError in `genHtml` instead of answering with an empty
body. -/
theorem static_missing_get_throws :
    ∃ m, init staticMissingEnv = .ok m ∧ m.indexHtml = "" ∧ m.manifest = none ∧
      ∀ r : Route, handleGet m r "/" (.ok .null) =
        .error (.typeError "Cannot read property of undefined") :=
  ⟨_, rfl, rfl, rfl, fun r => by cases r <;> rfl⟩

/-! ## The dispatcher -/

theorem init_static (env : Env) (m : ModuleState) (h : init env = .ok m)
    (hs : env.isSSREnabled = false) :
    m.isSSREnabled = false ∧ m.s = none ∧ m.manifest = none := by
  unfold init at h
  simp only [hs, Bool.false_eq_true, if_false] at h
  split at h
  · cases h; simp
  · cases h; simp

theorem genHtml_cached (m : ModuleState) (hidx : m.indexHtml ≠ "")
    (html : Option String) (extra : Extra) : genHtml m html extra = .ok m.indexHtml := by
  simp [genHtml, hidx]

theorem renderSSR_sync (m : ModuleState) (s : SSR) (manifest : List (String × String))
    (hs : m.s = some s) (hm : m.manifest = some manifest) (hidx : m.indexHtml = "")
    (ctx : Ctx) (data : JSValue) :
    ∃ text,
      genHtml m (some (s.render ctx.url (defaultData data)).html)
        { (s.render ctx.url (defaultData data)).extra with initialData := defaultData data }
          = .ok text ∧
      renderSSR m ctx data false =
        .ok { ctx.emit [.log "-----> Use React SSR Sync API!", .render ctx.url (defaultData data),
                .genHtml]
              with body := some text, status := 200 } := by
  refine ⟨_, genHtml_ssr m manifest hm hidx _ _, ?_⟩
  simp [renderSSR, hs, genHtml_ssr m manifest hm hidx, Ctx.emit]

theorem renderSSR_streaming (m : ModuleState) (s : SSR) (hs : m.s = some s)
    (ctx : Ctx) (data : JSValue) :
    renderSSR m ctx data true =
      .ok (genHtmlStream m (s.renderWithStream ctx.url (defaultData data)).html
        { (s.renderWithStream ctx.url (defaultData data)).extra with
            initialData := defaultData data }
        ({ ctx with headers := ctx.headers ++ [("Content-Type", "text/html")],
                    status := 200, respond := false }.emit
          [.log "-----> Use React SSR Streaming API!",
            .renderWithStream ctx.url (defaultData data), .genHtmlStream])) := by
  simp [renderSSR, hs, Ctx.emit]

theorem genHtmlStream_body (m : ModuleState) (stream : RenderStream) (extra : Extra)
    (ctx : Ctx) : (genHtmlStream m stream extra ctx).body = ctx.body := by
  obtain ⟨chunks, fate⟩ := stream
  cases fate with
  | errored e => simp [genHtmlStream, pipe, Ctx.enter, Ctx.emit]
  | ended =>
    cases hl : lookupScripts m extra with
    | error e => simp [genHtmlStream, markupOnEnd, pipe, Ctx.enter, hl, Ctx.emit]
    | ok p =>
      obtain ⟨scripts, called⟩ := p
      cases ha : after m extra scripts with
      | error e => simp [genHtmlStream, markupOnEnd, pipe, Ctx.enter, hl, ha, Ctx.emit]
      | ok tail =>
        simp [genHtmlStream, markupOnEnd, pipe, Ctx.enter, hl, ha, Ctx.emit, fromString,
          afterStreamOnEnd]

/-- C6: one rendering mode per request. With SSR disabled and a non-empty
cached document every GET request gets exactly the cached string as body and
the render engine is not called. With SSR enabled `renderSSR` with
`streaming = true` calls `renderWithStream` and `genHtmlStream` and nothing
else of the four, and leaves the body alone; with `streaming = false` it calls
`render` and `genHtml` and the body is what `genHtml` returns. The route `*`
uses `streaming = false`, the route `/github` uses `streaming = true`. -/
theorem one_mode_per_request (env : Env) (m : ModuleState) (hinit : init env = .ok m) :
    (env.isSSREnabled = false → m.indexHtml ≠ "" →
      ∀ r url fetched, ∃ ctx, handleGet m r url fetched = .ok ctx ∧
        ctx.body = some m.indexHtml ∧ renderCalls ctx.trace = [.genHtml] ∧
        lookups ctx.trace = []) ∧
    (env.isSSREnabled = true →
      (∀ ctx data, ∃ ctx', renderSSR m ctx data true = .ok ctx' ∧
        renderCalls ctx'.trace =
          renderCalls ctx.trace ++ [.renderWithStream ctx.url (defaultData data), .genHtmlStream] ∧
        ctx'.body = ctx.body) ∧
      (∀ ctx data, ∃ ctx' text, renderSSR m ctx data false = .ok ctx' ∧
        renderCalls ctx'.trace =
          renderCalls ctx.trace ++ [.render ctx.url (defaultData data), .genHtml] ∧
        genHtml m (some (env.engine.render ctx.url (defaultData data)).html)
          { (env.engine.render ctx.url (defaultData data)).extra with
              initialData := defaultData data } = .ok text ∧
        ctx'.body = some text) ∧
      (∀ url fetched, handleGet m .star url fetched =
        renderSSR m (middleware { url := url }) .undefined false) ∧
      (∀ url ret, handleGet m .github url (.ok ret) =
        renderSSR m (middleware { url := url }) (.obj (.cons "github" ret .nil)) true)) := by
  constructor
  · intro hs hidx r url fetched
    obtain ⟨hm, _, _⟩ := init_static env m hinit hs
    refine ⟨{ (middleware { url := url }).emit [.genHtml] with
      body := some m.indexHtml, status := 200 }, ?_, rfl, rfl, rfl⟩
    cases r with
    | github => simp [handleGet, getGithub, hm, genHtml_cached m hidx]
    | star => simp [handleGet, getStar, hm, genHtml_cached m hidx]
  · intro hssr
    obtain ⟨hen, hidx, hs, hm, _, _⟩ := init_ssr env m hinit hssr
    refine ⟨?_, ?_, ?_, ?_⟩
    · intro ctx data
      refine ⟨_, renderSSR_streaming m _ hs ctx data, ?_, ?_⟩
      · rw [renderCalls_genHtmlStream]
        simp [Ctx.emit, renderCalls_append, renderCalls]
      · rw [genHtmlStream_body]; rfl
    · intro ctx data
      obtain ⟨text, hg, hr⟩ := renderSSR_sync m _ _ hs hm hidx ctx data
      refine ⟨_, text, hr, ?_, hg, rfl⟩
      simp [Ctx.emit, renderCalls_append, renderCalls]
    · intro url fetched
      simp [handleGet, getStar, hen]
    · intro url ret
      simp [handleGet, getGithub, hen]

/-- C6 at the static build: both routes answer with the cached document. -/
theorem one_mode_per_request_witness :
    (∃ ctx, handleGet staticModule .github "/github" (.ok .null) = .ok ctx ∧
      ctx.body = some "<html>static</html>" ∧ renderCalls ctx.trace = [.genHtml] ∧
      lookups ctx.trace = []) ∧
    (∃ ctx, renderSSR devModule { url := "/github" } (.obj (.cons "github" .null .nil)) true
        = .ok ctx ∧
      renderCalls ctx.trace =
        renderCalls ({ url := "/github" } : Ctx).trace ++
          [.renderWithStream "/github" (defaultData (.obj (.cons "github" .null .nil))),
            .genHtmlStream] ∧
      ctx.body = none) :=
  ⟨(one_mode_per_request staticEnv staticModule rfl).1 rfl (by decide) .github "/github"
      (.ok .null),
    ((one_mode_per_request devEnv devModule rfl).2 rfl).1 { url := "/github" }
      (.obj (.cons "github" .null .nil))⟩

/-! ## Occurrences -/

theorem startsWith_append (pat a b : List Char) (h : startsWith pat a = true) :
    startsWith pat (a ++ b) = true := by
  induction pat generalizing a with
  | nil => cases a <;> cases b <;> rfl
  | cons p ps ih =>
    cases a with
    | nil => simp [startsWith] at h
    | cons c cs =>
      simp only [startsWith, Bool.and_eq_true, List.cons_append] at h ⊢
      exact ⟨h.1, ih cs h.2⟩

theorem startsWith_length (pat a : List Char) (h : startsWith pat a = true) :
    pat.length ≤ a.length := by
  induction pat generalizing a with
  | nil => simp
  | cons p ps ih =>
    cases a with
    | nil => simp [startsWith] at h
    | cons c cs =>
      simp only [startsWith, Bool.and_eq_true] at h
      have := ih cs h.2
      simp; omega

theorem startsWith_of_append (pat a b : List Char) (h : startsWith pat (a ++ b) = true)
    (hlen : pat.length ≤ a.length) : startsWith pat a = true := by
  induction pat generalizing a with
  | nil => cases a <;> rfl
  | cons p ps ih =>
    cases a with
    | nil => simp at hlen
    | cons c cs =>
      simp only [startsWith, Bool.and_eq_true, List.cons_append] at h ⊢
      exact ⟨h.1, ih cs h.2 (by simpa using hlen)⟩

theorem occurrences_length (pat a : List Char) (h : 0 < occurrences pat a) :
    pat.length ≤ a.length := by
  induction a with
  | nil => simp [occurrences] at h
  | cons c cs ih =>
    by_cases hs : startsWith pat (c :: cs) = true
    · exact startsWith_length pat _ hs
    · have hpos : 0 < occurrences pat cs := by
        simp only [occurrences, hs] at h
        simpa using h
      have := ih hpos
      simp; omega

theorem untilFirst_append (pat a b : List Char) (h : 0 < occurrences pat a) :
    untilFirst pat (a ++ b) = untilFirst pat a ∧ (untilFirst pat a).length < a.length := by
  induction a with
  | nil => simp [occurrences] at h
  | cons c cs ih =>
    by_cases hs : startsWith pat (c :: cs) = true
    · have hs2 := startsWith_append pat (c :: cs) b hs
      simp only [List.cons_append] at hs2
      simp [untilFirst, hs, hs2]
    · have hpos : 0 < occurrences pat cs := by
        simp only [occurrences, hs] at h
        simpa using h
      obtain ⟨h1, h2⟩ := ih hpos
      have hs2 : ¬ startsWith pat (c :: (cs ++ b)) = true := by
        intro hc
        apply hs
        apply startsWith_of_append pat (c :: cs) b hc
        have := occurrences_length pat cs hpos
        simp; omega
      have hs' : startsWith pat (c :: cs) = false := by simpa using hs
      have hs2' : startsWith pat (c :: (cs ++ b)) = false := by simpa using hs2
      simp [untilFirst, hs', hs2', h1, h2]

theorem stringify_falsy (v : JSValue) (text : String) (hv : v.truthy = false)
    (hj : JSON.stringify v = some text) : occurrences scriptClose.data text.data = 0 := by
  cases v with
  | undefined => simp [JSON.stringify, JSON.stringifyValue] at hj
  | null =>
    simp [JSON.stringify, JSON.stringifyValue] at hj
    subst hj; rfl
  | bool b =>
    simp [JSValue.truthy] at hv
    subst hv
    simp [JSON.stringify, JSON.stringifyValue] at hj
    subst hj; rfl
  | num n =>
    simp [JSValue.truthy] at hv
    by_cases h0 : n = "0"
    · subst h0
      simp [JSON.stringify, JSON.stringifyValue] at hj
      subst hj; rfl
    · have hn := hv h0
      subst hn
      simp [JSON.stringify, JSON.stringifyValue] at hj
      subst hj; rfl
  | str s =>
    simp [JSValue.truthy] at hv
    subst hv
    simp [JSON.stringify, JSON.stringifyValue] at hj
    subst hj; rfl
  | arr xs => simp [JSValue.truthy] at hv
  | obj ps => simp [JSValue.truthy] at hv

theorem initialDataText_truthy (extra : Extra) (text : String)
    (hv : extra.initialData.truthy = true)
    (hj : JSON.stringify extra.initialData = some text) : initialDataText extra = text := by
  simp [initialDataText, JSValue.orEmptyObject, hv, hj, jsString]

/-- C9: the initial-data script holds the text of `JSON.stringify` as it is.
When that text contains `</script>`, the document of `genHtml` and the tail of
`genHtmlStream` hold it unchanged right after the assignment, and the content
of the data script element, which ends at the first `</script>`, ends inside
the data: it is a part of the JSON text shorter than the whole. -/
theorem initial_data_closes_script (env : Env) (m : ModuleState)
    (hinit : init env = .ok m) (hssr : env.isSSREnabled = true)
    (html : Option String) (extra : Extra) (scripts : List String) (text : String)
    (hj : JSON.stringify extra.initialData = some text)
    (hocc : 0 < occurrences scriptClose.data text.data) :
    genHtml m html extra = .ok (docOpen ++ titleOf extra ++ "</title>\n        " ++ m.styleLinks ++
        "\n      </head>\n      <body>\n        <div id=\"app\">" ++ jsString html ++
        "</div>\n        " ++ dataScriptOpen ++ text ++
        "</script>\n        " ++ m.manifestInlineScript ++
        "\n        " ++ join "" (extra.scripts.getD []) ++
        "\n        \n        " ++ appScriptOpen ++
        (m.publicPath ++ jsString (env.groupedManifest.manifest.lookup m.APP_JS)) ++ docClose) ∧
    after m extra scripts = .ok ("</div>\n    " ++ dataScriptOpen ++ text ++
        "</script>\n        " ++ m.manifestInlineScript ++
        "\n        " ++ arrayToString scripts ++
        "\n        " ++ appScriptOpen ++
        (m.publicPath ++ jsString (env.groupedManifest.manifest.lookup m.APP_JS)) ++ docClose) ∧
    (∀ rest : String,
      untilFirst scriptClose.data (text ++ rest).data = untilFirst scriptClose.data text.data ∧
      (untilFirst scriptClose.data (text ++ rest).data).length < text.length) := by
  obtain ⟨_, hidx, _, hm, _, _⟩ := init_ssr env m hinit hssr
  have hv : extra.initialData.truthy = true := by
    cases h : extra.initialData.truthy with
    | true => rfl
    | false =>
      have := stringify_falsy _ text h hj
      omega
  have ht := initialDataText_truthy extra text hv hj
  refine ⟨?_, ?_, ?_⟩
  · rw [genHtml_ssr m _ hm hidx, ht]
  · rw [after_ssr m _ hm, ht]
  · intro rest
    obtain ⟨h1, h2⟩ := untilFirst_append scriptClose.data text.data rest.data hocc
    rw [String.data_append, h1]
    exact ⟨rfl, h2⟩

/-- C9 at a string field that holds a script end tag and a script. -/
theorem initial_data_closes_script_witness :
    JSON.stringify (.obj (.cons "x" (.str "</script><script>alert(1)</script>") .nil)) =
      some "\x7b\"x\":\"</script><script>alert(1)</script>\"\x7d" ∧
    untilFirst scriptClose.data
      ("\x7b\"x\":\"</script><script>alert(1)</script>\"\x7d" ++ "</script>\n        ").data =
      "\x7b\"x\":\"".data :=
  ⟨rfl, by
    rw [((initial_data_closes_script devEnv devModule rfl rfl (some "<div>A</div>")
      { initialData := .obj (.cons "x" (.str "</script><script>alert(1)</script>") .nil) } []
      "\x7b\"x\":\"</script><script>alert(1)</script>\"\x7d" rfl (by decide)).2.2
        "</script>\n        ").1]
    rfl⟩

theorem startsWith_nil_right (pat : List Char) (h : startsWith pat [] = true) : pat = [] := by
  cases pat with
  | nil => rfl
  | cons p ps => simp [startsWith] at h

theorem startsWith_head (ps b : List Char) (hb : ∀ c, b.head? = some c → c ∉ ps) :
    startsWith ps b = startsWith ps [] := by
  cases ps with
  | nil => cases b <;> rfl
  | cons r rs =>
    cases b with
    | nil => rfl
    | cons d ds =>
      have : d ∉ r :: rs := hb d rfl
      have hne : r ≠ d := fun h => this (by simp [h])
      simp [startsWith, hne]

theorem startsWith_append_right (p x b : List Char) (hx : x ≠ [])
    (hb : ∀ c, b.head? = some c → c ∉ p.tail) :
    startsWith p (x ++ b) = startsWith p x := by
  induction x generalizing p with
  | nil => exact absurd rfl hx
  | cons c cs ih =>
    cases p with
    | nil => rfl
    | cons q ps =>
      simp only [List.cons_append, startsWith]
      congr 1
      cases cs with
      | nil => simpa using startsWith_head ps b hb
      | cons c2 cs2 =>
        apply ih ps (by simp)
        intro d hd hmem
        exact hb d hd (List.mem_of_mem_tail hmem)

theorem startsWith_swap (p x b : List Char) (h : startsWith p (x ++ b) = true)
    (hlen : x.length ≤ p.length) : startsWith x p = true := by
  induction x generalizing p with
  | nil => cases p <;> rfl
  | cons c cs ih =>
    cases p with
    | nil => simp at hlen
    | cons q ps =>
      simp only [List.cons_append, startsWith, Bool.and_eq_true, beq_iff_eq] at h ⊢
      exact ⟨h.1.symm, ih ps h.2 (by simpa using hlen)⟩

theorem startsWith_append_left (p x b : List Char)
    (hx : (decide (x.length < p.length) && startsWith x p) = false) :
    startsWith p (x ++ b) = startsWith p x := by
  by_cases hlen : p.length ≤ x.length
  · cases h : startsWith p x with
    | true => exact startsWith_append p x b h
    | false =>
      cases h2 : startsWith p (x ++ b) with
      | false => rfl
      | true => rw [startsWith_of_append p x b h2 hlen] at h; cases h
  · have hlt : x.length < p.length := by omega
    have h1 : startsWith p x = false := by
      cases h : startsWith p x with
      | false => rfl
      | true => have := startsWith_length p x h; omega
    rw [h1]
    cases h2 : startsWith p (x ++ b) with
    | false => rfl
    | true =>
      have := startsWith_swap p x b h2 (by omega)
      simp [hlt, this] at hx

theorem occurrences_cons (p : List Char) (c : Char) (cs : List Char) :
    occurrences p (c :: cs) =
      (if startsWith p (c :: cs) then 1 else 0) + occurrences p cs := rfl

theorem occurrences_append_left (p a b : List Char) (ha : overlapFree p a = true) :
    occurrences p (a ++ b) = occurrences p a + occurrences p b := by
  induction a with
  | nil => simp [occurrences]
  | cons c cs ih =>
    simp only [overlapFree, Bool.and_eq_true, Bool.not_eq_true'] at ha
    have h1 := startsWith_append_left p (c :: cs) b ha.1
    simp only [List.cons_append] at h1
    rw [List.cons_append, occurrences_cons, occurrences_cons, h1, ih ha.2]
    omega

theorem occurrences_append_right (p a b : List Char)
    (hb : ∀ c, b.head? = some c → c ∉ p.tail) :
    occurrences p (a ++ b) = occurrences p a + occurrences p b := by
  induction a with
  | nil => simp [occurrences]
  | cons c cs ih =>
    have h1 := startsWith_append_right p (c :: cs) b (by simp) hb
    simp only [List.cons_append] at h1
    rw [List.cons_append, occurrences_cons, occurrences_cons, h1, ih]
    omega

theorem headFree_append (p l rest : List Char) (hl : headFree p l = true) :
    ∀ c, (l ++ rest).head? = some c → c ∉ p.tail := by
  cases l with
  | nil => simp [headFree] at hl
  | cons d ds =>
    intro c hc
    simp at hc
    subst hc
    simpa [headFree] using hl

/-- A text that a piece `l` with a safe first character follows adds its own
occurrences only. -/
theorem occurrences_dyn (p d l rest : List Char) (hl : headFree p l = true) :
    occurrences p (d ++ (l ++ rest)) = occurrences p d + occurrences p (l ++ rest) :=
  occurrences_append_right p d (l ++ rest) (headFree_append p l rest hl)

theorem occurrences_dyn_last (p d l : List Char) (hl : headFree p l = true) :
    occurrences p (d ++ l) = occurrences p d + occurrences p l := by
  have := occurrences_dyn p d l [] hl
  simpa using this

/-- Occurrences in a text made of eight fixed pieces with seven inserted
texts between them add up piece by piece. -/
theorem occurrences_template (p l0 d0 l1 d1 l2 d2 l3 d3 l4 d4 l5 d5 l6 d6 l7 : List Char)
    (o0 : overlapFree p l0 = true) (o1 : overlapFree p l1 = true)
    (o2 : overlapFree p l2 = true) (o3 : overlapFree p l3 = true)
    (o4 : overlapFree p l4 = true) (o5 : overlapFree p l5 = true)
    (o6 : overlapFree p l6 = true)
    (f1 : headFree p l1 = true) (f2 : headFree p l2 = true) (f3 : headFree p l3 = true)
    (f4 : headFree p l4 = true) (f5 : headFree p l5 = true) (f6 : headFree p l6 = true)
    (f7 : headFree p l7 = true) :
    occurrences p (l0 ++ (d0 ++ (l1 ++ (d1 ++ (l2 ++ (d2 ++ (l3 ++ (d3 ++ (l4 ++ (d4 ++
      (l5 ++ (d5 ++ (l6 ++ (d6 ++ l7)))))))))))))) =
      occurrences p l0 + occurrences p l1 + occurrences p l2 + occurrences p l3 +
        occurrences p l4 + occurrences p l5 + occurrences p l6 + occurrences p l7 +
        (occurrences p d0 + occurrences p d1 + occurrences p d2 + occurrences p d3 +
          occurrences p d4 + occurrences p d5 + occurrences p d6) := by
  rw [occurrences_append_left p l0 _ o0, occurrences_dyn p d0 l1 _ f1,
    occurrences_append_left p l1 _ o1, occurrences_dyn p d1 l2 _ f2,
    occurrences_append_left p l2 _ o2, occurrences_dyn p d2 l3 _ f3,
    occurrences_append_left p l3 _ o3, occurrences_dyn p d3 l4 _ f4,
    occurrences_append_left p l4 _ o4, occurrences_dyn p d4 l5 _ f5,
    occurrences_append_left p l5 _ o5, occurrences_dyn p d5 l6 _ f6,
    occurrences_append_left p l6 _ o6, occurrences_dyn_last p d6 l7 f7]
  omega

set_option maxRecDepth 100000 in
theorem genHtml_literals_scriptOpen :
    overlapFree scriptOpen.data docOpen.data = true ∧
    overlapFree scriptOpen.data "</title>\n        ".data = true ∧
    overlapFree scriptOpen.data
      "\n      </head>\n      <body>\n        <div id=\"app\">".data = true ∧
    overlapFree scriptOpen.data ("</div>\n        ".data ++ dataScriptOpen.data) = true ∧
    overlapFree scriptOpen.data "</script>\n        ".data = true ∧
    overlapFree scriptOpen.data "\n        ".data = true ∧
    overlapFree scriptOpen.data ("\n        \n        ".data ++ appScriptOpen.data) = true ∧
    headFree scriptOpen.data "</title>\n        ".data = true ∧
    headFree scriptOpen.data
      "\n      </head>\n      <body>\n        <div id=\"app\">".data = true ∧
    headFree scriptOpen.data ("</div>\n        ".data ++ dataScriptOpen.data) = true ∧
    headFree scriptOpen.data "</script>\n        ".data = true ∧
    headFree scriptOpen.data "\n        ".data = true ∧
    headFree scriptOpen.data ("\n        \n        ".data ++ appScriptOpen.data) = true ∧
    headFree scriptOpen.data docClose.data = true ∧
    occurrences scriptOpen.data docOpen.data = 0 ∧
    occurrences scriptOpen.data "</title>\n        ".data = 0 ∧
    occurrences scriptOpen.data
      "\n      </head>\n      <body>\n        <div id=\"app\">".data = 0 ∧
    occurrences scriptOpen.data ("</div>\n        ".data ++ dataScriptOpen.data) = 1 ∧
    occurrences scriptOpen.data "</script>\n        ".data = 0 ∧
    occurrences scriptOpen.data "\n        ".data = 0 ∧
    occurrences scriptOpen.data ("\n        \n        ".data ++ appScriptOpen.data) = 1 ∧
    occurrences scriptOpen.data docClose.data = 0 := by
  decide

set_option maxRecDepth 100000 in
theorem genHtml_literals_dataMarker :
    overlapFree dataMarker.data docOpen.data = true ∧
    overlapFree dataMarker.data "</title>\n        ".data = true ∧
    overlapFree dataMarker.data
      "\n      </head>\n      <body>\n        <div id=\"app\">".data = true ∧
    overlapFree dataMarker.data ("</div>\n        ".data ++ dataScriptOpen.data) = true ∧
    overlapFree dataMarker.data "</script>\n        ".data = true ∧
    overlapFree dataMarker.data "\n        ".data = true ∧
    overlapFree dataMarker.data ("\n        \n        ".data ++ appScriptOpen.data) = true ∧
    headFree dataMarker.data "</title>\n        ".data = true ∧
    headFree dataMarker.data
      "\n      </head>\n      <body>\n        <div id=\"app\">".data = true ∧
    headFree dataMarker.data ("</div>\n        ".data ++ dataScriptOpen.data) = true ∧
    headFree dataMarker.data "</script>\n        ".data = true ∧
    headFree dataMarker.data "\n        ".data = true ∧
    headFree dataMarker.data ("\n        \n        ".data ++ appScriptOpen.data) = true ∧
    headFree dataMarker.data docClose.data = true ∧
    occurrences dataMarker.data docOpen.data = 0 ∧
    occurrences dataMarker.data "</title>\n        ".data = 0 ∧
    occurrences dataMarker.data
      "\n      </head>\n      <body>\n        <div id=\"app\">".data = 0 ∧
    occurrences dataMarker.data ("</div>\n        ".data ++ dataScriptOpen.data) = 1 ∧
    occurrences dataMarker.data "</script>\n        ".data = 0 ∧
    occurrences dataMarker.data "\n        ".data = 0 ∧
    occurrences dataMarker.data ("\n        \n        ".data ++ appScriptOpen.data) = 0 ∧
    occurrences dataMarker.data docClose.data = 0 := by
  decide

theorem genHtml_data (m : ModuleState) (html : Option String) (extra : Extra) (src : String) :
    (docOpen ++ titleOf extra ++ "</title>\n        " ++ m.styleLinks ++
        "\n      </head>\n      <body>\n        <div id=\"app\">" ++ jsString html ++
        "</div>\n        " ++ dataScriptOpen ++ initialDataText extra ++
        "</script>\n        " ++ m.manifestInlineScript ++
        "\n        " ++ join "" (extra.scripts.getD []) ++
        "\n        \n        " ++ appScriptOpen ++ src ++ docClose).data =
      docOpen.data ++ ((titleOf extra).data ++ ("</title>\n        ".data ++ (m.styleLinks.data ++
        ("\n      </head>\n      <body>\n        <div id=\"app\">".data ++ ((jsString html).data ++
        (("</div>\n        ".data ++ dataScriptOpen.data) ++ ((initialDataText extra).data ++
        ("</script>\n        ".data ++ (m.manifestInlineScript.data ++
        ("\n        ".data ++ ((join "" (extra.scripts.getD [])).data ++
        (("\n        \n        ".data ++ appScriptOpen.data) ++ (src.data ++ docClose.data)))))))))))))
      := by
  simp only [String.data_append, List.append_assoc]

theorem genHtml_occurrences_scriptOpen (m : ModuleState) (html : Option String) (extra : Extra)
    (src : String) :
    occurrences scriptOpen.data (docOpen ++ titleOf extra ++ "</title>\n        " ++ m.styleLinks ++
        "\n      </head>\n      <body>\n        <div id=\"app\">" ++ jsString html ++
        "</div>\n        " ++ dataScriptOpen ++ initialDataText extra ++
        "</script>\n        " ++ m.manifestInlineScript ++
        "\n        " ++ join "" (extra.scripts.getD []) ++
        "\n        \n        " ++ appScriptOpen ++ src ++ docClose).data =
      2 + (occurrences scriptOpen.data (titleOf extra).data +
        occurrences scriptOpen.data m.styleLinks.data +
        occurrences scriptOpen.data (jsString html).data +
        occurrences scriptOpen.data (initialDataText extra).data +
        occurrences scriptOpen.data m.manifestInlineScript.data +
        occurrences scriptOpen.data (join "" (extra.scripts.getD [])).data +
        occurrences scriptOpen.data src.data) := by
  obtain ⟨o0, o1, o2, o3, o4, o5, o6, f1, f2, f3, f4, f5, f6, f7, c0, c1, c2, c3, c4, c5, c6, c7⟩
    := genHtml_literals_scriptOpen
  rw [genHtml_data, occurrences_template _ _ _ _ _ _ _ _ _ _ _ _ _ _ _ _ o0 o1 o2 o3 o4 o5 o6
    f1 f2 f3 f4 f5 f6 f7, c0, c1, c2, c3, c4, c5, c6, c7]

theorem genHtml_occurrences_dataMarker (m : ModuleState) (html : Option String) (extra : Extra)
    (src : String) :
    occurrences dataMarker.data (docOpen ++ titleOf extra ++ "</title>\n        " ++ m.styleLinks ++
        "\n      </head>\n      <body>\n        <div id=\"app\">" ++ jsString html ++
        "</div>\n        " ++ dataScriptOpen ++ initialDataText extra ++
        "</script>\n        " ++ m.manifestInlineScript ++
        "\n        " ++ join "" (extra.scripts.getD []) ++
        "\n        \n        " ++ appScriptOpen ++ src ++ docClose).data =
      1 + (occurrences dataMarker.data (titleOf extra).data +
        occurrences dataMarker.data m.styleLinks.data +
        occurrences dataMarker.data (jsString html).data +
        occurrences dataMarker.data (initialDataText extra).data +
        occurrences dataMarker.data m.manifestInlineScript.data +
        occurrences dataMarker.data (join "" (extra.scripts.getD [])).data +
        occurrences dataMarker.data src.data) := by
  obtain ⟨o0, o1, o2, o3, o4, o5, o6, f1, f2, f3, f4, f5, f6, f7, c0, c1, c2, c3, c4, c5, c6, c7⟩
    := genHtml_literals_dataMarker
  rw [genHtml_data, occurrences_template _ _ _ _ _ _ _ _ _ _ _ _ _ _ _ _ o0 o1 o2 o3 o4 o5 o6
    f1 f2 f3 f4 f5 f6 f7, c0, c1, c2, c3, c4, c5, c6, c7]

theorem init_runtime_script (env : Env) (m : ModuleState) (h : init env = .ok m)
    (hs : env.isSSREnabled = true) :
    (env.DEV_MODE = true →
      m.manifestInlineScript = "<script type=\"text/javascript\" src=\"" ++
        (env.publicPath ++ jsString (env.groupedManifest.manifest.lookup env.RUNTIME_JS)) ++
        "\"></script>") ∧
    (env.DEV_MODE = false →
      ∃ temp, env.readFileSync ("../build/app/" ++
          jsString (env.groupedManifest.manifest.lookup env.RUNTIME_JS)) = some temp ∧
        m.manifestInlineScript = "<script type=\"text/javascript\">" ++ temp ++ "</script>") := by
  unfold init at h
  simp only [hs, if_true] at h
  cases hd : env.DEV_MODE with
  | true =>
    simp only [hd, Bool.not_true, Bool.false_eq_true, if_false] at h
    cases h
    simp
  | false =>
    simp only [hd, Bool.not_false, if_true] at h
    split at h
    · cases h
    · rename_i temp htemp
      cases h
      exact ⟨by simp, fun _ => ⟨temp, htemp, rfl⟩⟩

theorem occurrences_wrapped (p l d r : String) (ho : overlapFree p.data l.data = true)
    (hf : headFree p.data r.data = true) :
    occurrences p.data (l ++ d ++ r).data =
      occurrences p.data l.data + occurrences p.data d.data + occurrences p.data r.data := by
  simp only [String.data_append, List.append_assoc]
  rw [occurrences_append_left _ _ _ ho, occurrences_dyn_last _ _ _ hf]
  omega

/-- C7 (as the code has it): with SSR enabled `genHtml` returns the text of
its template. After the markup it holds the data script (the assignment
`window.__INITIAL_DATA__ = ` and the JSON text), then the runtime script, then
the entries of `extra.scripts` joined without separator (every entry is a part
of that text), then the app script with `src = publicPath + manifest[APP_JS]`.
The runtime script is one external script with
`src = publicPath + manifest[RUNTIME_JS]` in development and one inline script
whose body is the contents of the runtime file in production. In the returned
text the assignment occurs once and `<script` twice (the data script and the
app script) in the fixed text of the template, each plus its occurrences in
the inserted texts: the title, the style links, the markup, the JSON text, the
runtime script, the joined entries of `extra.scripts` and the app `src`; the
runtime script holds `<script` once plus the occurrences in its `src` or in
the file's contents. -/
theorem genHtml_script_tags (env : Env) (m : ModuleState)
    (hinit : init env = .ok m) (hssr : env.isSSREnabled = true)
    (html : Option String) (extra : Extra) :
    ∃ doc runtime, genHtml m html extra = .ok doc ∧
      doc = docOpen ++ titleOf extra ++ "</title>\n        " ++ m.styleLinks ++
        "\n      </head>\n      <body>\n        <div id=\"app\">" ++ jsString html ++
        "</div>\n        " ++ dataScriptOpen ++ initialDataText extra ++
        "</script>\n        " ++ runtime ++
        "\n        " ++ join "" (extra.scripts.getD []) ++
        "\n        \n        " ++ appScriptOpen ++
        (env.publicPath ++ jsString (env.groupedManifest.manifest.lookup env.APP_JS)) ++
        docClose ∧
      (∀ t ∈ extra.scripts.getD [], ∃ a b, join "" (extra.scripts.getD []) = a ++ t ++ b) ∧
      (env.DEV_MODE = true →
        runtime = "<script type=\"text/javascript\" src=\"" ++
          (env.publicPath ++ jsString (env.groupedManifest.manifest.lookup env.RUNTIME_JS)) ++
          "\"></script>" ∧
        occurrences scriptOpen.data runtime.data =
          1 + occurrences scriptOpen.data
            (env.publicPath ++
              jsString (env.groupedManifest.manifest.lookup env.RUNTIME_JS)).data) ∧
      (env.DEV_MODE = false →
        ∃ temp, env.readFileSync ("../build/app/" ++
            jsString (env.groupedManifest.manifest.lookup env.RUNTIME_JS)) = some temp ∧
          runtime = "<script type=\"text/javascript\">" ++ temp ++ "</script>" ∧
          occurrences scriptOpen.data runtime.data =
            1 + occurrences scriptOpen.data temp.data) ∧
      occurrences dataMarker.data doc.data =
        1 + (occurrences dataMarker.data (titleOf extra).data +
          occurrences dataMarker.data m.styleLinks.data +
          occurrences dataMarker.data (jsString html).data +
          occurrences dataMarker.data (initialDataText extra).data +
          occurrences dataMarker.data runtime.data +
          occurrences dataMarker.data (join "" (extra.scripts.getD [])).data +
          occurrences dataMarker.data
            (env.publicPath ++ jsString (env.groupedManifest.manifest.lookup env.APP_JS)).data) ∧
      occurrences scriptOpen.data doc.data =
        2 + (occurrences scriptOpen.data (titleOf extra).data +
          occurrences scriptOpen.data m.styleLinks.data +
          occurrences scriptOpen.data (jsString html).data +
          occurrences scriptOpen.data (initialDataText extra).data +
          occurrences scriptOpen.data runtime.data +
          occurrences scriptOpen.data (join "" (extra.scripts.getD [])).data +
          occurrences scriptOpen.data
            (env.publicPath ++
              jsString (env.groupedManifest.manifest.lookup env.APP_JS)).data) := by
  obtain ⟨_, hidx, _, hm, hp, ha⟩ := init_ssr env m hinit hssr
  obtain ⟨hdev, hprod⟩ := init_runtime_script env m hinit hssr
  have hdoc := genHtml_ssr m _ hm hidx html extra
  rw [hp, ha] at hdoc
  refine ⟨_, m.manifestInlineScript, hdoc, rfl, fun t ht => join_mem "" _ t ht, ?_, ?_,
    genHtml_occurrences_dataMarker m html extra _,
    genHtml_occurrences_scriptOpen m html extra _⟩
  · intro hd
    refine ⟨hdev hd, ?_⟩
    rw [hdev hd, occurrences_wrapped _ _ _ _ (by decide) (by decide)]
    have h1 : occurrences scriptOpen.data "<script type=\"text/javascript\" src=\"".data = 1 := by
      decide
    have h2 : occurrences scriptOpen.data "\"></script>".data = 0 := by decide
    omega
  · intro hd
    obtain ⟨temp, ht, hmis⟩ := hprod hd
    refine ⟨temp, ht, hmis, ?_⟩
    rw [hmis, occurrences_wrapped _ _ _ _ (by decide) (by decide)]
    have h1 : occurrences scriptOpen.data "<script type=\"text/javascript\">".data = 1 := by
      decide
    have h2 : occurrences scriptOpen.data "</script>".data = 0 := by decide
    omega

set_option maxRecDepth 100000 in
/-- C7 at a production build and a render result without scripts of its
own: the document is the template with the inline runtime script, it holds one
data assignment and three script elements. -/
theorem genHtml_script_tags_witness :
    ∃ doc, genHtml prodModule (some "<div>A</div>") { title := some "Home" } = .ok doc ∧
      doc = docOpen ++ "Home" ++ "</title>\n        " ++
        "<link href=\"/app.css\" rel=\"stylesheet\">" ++
        "\n      </head>\n      <body>\n        <div id=\"app\">" ++ "<div>A</div>" ++
        "</div>\n        " ++ dataScriptOpen ++ "\x7b\x7d" ++
        "</script>\n        " ++ "<script type=\"text/javascript\">var r=1;</script>" ++
        "\n        " ++ "" ++
        "\n        \n        " ++ appScriptOpen ++ "/app.1.js" ++ docClose ∧
      occurrences dataMarker.data doc.data = 1 ∧
      occurrences scriptOpen.data doc.data = 3 := by
  obtain ⟨doc, runtime, hdoc, hd, _, _, hprod, h1, h2⟩ :=
    genHtml_script_tags prodEnv prodModule rfl rfl (some "<div>A</div>") { title := some "Home" }
  obtain ⟨temp, ht, hr, _⟩ := hprod rfl
  have htemp : temp = "var r=1;" := by
    have : some "var r=1;" = some temp := ht
    exact (Option.some.inj this).symm
  subst htemp
  subst hr
  refine ⟨doc, hdoc, ?_, ?_, ?_⟩
  · rw [hd]; decide
  · rw [h1]; decide
  · rw [h2]; decide

set_option maxRecDepth 100000 in
/-- C7 fails on the code: in a development build a render result with one
entry in `scripts` gives a document with four script elements, three of them
external: the runtime script, the entry of `scripts` and the app script. -/
theorem genHtml_script_tags_counterexample :
    ∃ doc, genHtml devModule (some "<div>A</div>")
        { scripts := some ["<script src=\"/w.js\"></script>"] } = .ok doc ∧
      doc = docOpen ++ "React App" ++ "</title>\n        " ++
        "<link href=\"/app.css\" rel=\"stylesheet\">" ++
        "\n      </head>\n      <body>\n        <div id=\"app\">" ++ "<div>A</div>" ++
        "</div>\n        " ++ dataScriptOpen ++ "\x7b\x7d" ++
        "</script>\n        " ++ "<script type=\"text/javascript\" src=\"/runtime.1.js\"></script>" ++
        "\n        " ++ "<script src=\"/w.js\"></script>" ++
        "\n        \n        " ++ appScriptOpen ++ "/app.1.js" ++ docClose ∧
      occurrences scriptOpen.data doc.data = 4 ∧
      occurrences "<script src=".data doc.data +
        occurrences "<script type=\"text/javascript\" src=".data doc.data = 3 :=
  ⟨_, rfl, by decide, by decide, by decide⟩

namespace JSON

/-! ## Numbers -/

theorem takeDigits_append (cs rest : List Char)
    (hrest : ∀ c, rest.head? = some c → isDigit c = false) :
    takeDigits (cs ++ rest) = ((takeDigits cs).1, (takeDigits cs).2 ++ rest) := by
  induction cs with
  | nil =>
    cases rest with
    | nil => rfl
    | cons c r => simp [takeDigits, hrest c rfl]
  | cons c cs ih =>
    by_cases hc : isDigit c = true
    · simp [takeDigits, hc, ih]
    · simp [takeDigits, hc]

theorem takeDigits_eq (cs : List Char) : (takeDigits cs).1 ++ (takeDigits cs).2 = cs := by
  induction cs with
  | nil => rfl
  | cons c cs ih =>
    by_cases hc : isDigit c = true
    · simp [takeDigits, hc, ih]
    · simp [takeDigits, hc]

theorem takeDigits_head (cs : List Char) (c : Char) (h : (takeDigits cs).1.head? = some c) :
    cs.head? = some c ∧ isDigit c = true := by
  cases cs with
  | nil => simp [takeDigits] at h
  | cons d ds =>
    by_cases hd : isDigit d = true
    · simp [takeDigits, hd] at h
      subst h
      exact ⟨rfl, hd⟩
    · simp [takeDigits, hd] at h

theorem restOK_digit (rest : List Char) (h : restOK rest) :
    ∀ c, rest.head? = some c → isDigit c = false :=
  fun c hc => (h c hc).1

theorem scanDigits_append (cs rest a r : List Char) (h : scanDigits cs = some (a, r))
    (hrest : restOK rest) : scanDigits (cs ++ rest) = some (a, r ++ rest) := by
  unfold scanDigits at h ⊢
  rw [takeDigits_append cs rest (restOK_digit rest hrest)]
  rcases hd : takeDigits cs with ⟨ds, r0⟩
  rw [hd] at h
  cases ds with
  | nil => simp at h
  | cons d ds =>
    simp at h
    obtain ⟨h1, h2⟩ := h
    subst h1
    subst h2
    simp

theorem scanInt_append (cs rest a r : List Char) (h : scanInt cs = some (a, r))
    (hrest : restOK rest) : scanInt (cs ++ rest) = some (a, r ++ rest) := by
  unfold scanInt at h ⊢
  rw [takeDigits_append cs rest (restOK_digit rest hrest)]
  rcases hd : takeDigits cs with ⟨ds, r0⟩
  rw [hd] at h
  cases ds with
  | nil => simp at h
  | cons d ds =>
    by_cases h0 : d = '0' ∧ ds ≠ []
    · simp [h0] at h
    · simp only [h0, if_false] at h ⊢
      simp at h
      obtain ⟨h1, h2⟩ := h
      subst h1
      subst h2
      rfl

theorem scanFrac_append (cs rest a r : List Char) (h : scanFrac cs = some (a, r))
    (hrest : restOK rest) : scanFrac (cs ++ rest) = some (a, r ++ rest) := by
  cases cs with
  | nil =>
    simp [scanFrac] at h
    obtain ⟨h1, h2⟩ := h
    subst h1
    subst h2
    cases rest with
    | nil => rfl
    | cons c t =>
      have := (hrest c rfl).2.1
      simp [scanFrac, this]
  | cons c t =>
    by_cases hc : c = '.'
    · simp only [scanFrac, hc, if_true, List.cons_append] at h ⊢
      cases hs : scanDigits t with
      | none => simp [hs] at h
      | some p =>
        obtain ⟨ds, r1⟩ := p
        rw [hs] at h
        simp at h
        obtain ⟨h1, h2⟩ := h
        subst h1
        subst h2
        rw [scanDigits_append t rest ds r1 hs hrest]
    · simp only [scanFrac, hc, if_false, List.cons_append] at h ⊢
      simp at h
      obtain ⟨h1, h2⟩ := h
      subst h1
      subst h2
      rfl

theorem scanExp_append (cs rest a r : List Char) (h : scanExp cs = some (a, r))
    (hrest : restOK rest) : scanExp (cs ++ rest) = some (a, r ++ rest) := by
  cases cs with
  | nil =>
    simp [scanExp] at h
    obtain ⟨h1, h2⟩ := h
    subst h1
    subst h2
    cases rest with
    | nil => rfl
    | cons c t =>
      have h3 := (hrest c rfl).2.2
      simp [scanExp, h3.1, h3.2]
  | cons c t =>
    by_cases hc : c = 'e' ∨ c = 'E'
    · cases t with
      | nil => simp [scanExp, hc] at h
      | cons s r1 =>
        by_cases hsg : s = '+' ∨ s = '-'
        · simp only [scanExp, hc, hsg, if_true, List.cons_append] at h ⊢
          cases hs : scanDigits r1 with
          | none => simp [hs] at h
          | some p =>
            obtain ⟨ds, r2⟩ := p
            rw [hs] at h
            simp at h
            obtain ⟨h1, h2⟩ := h
            subst h1
            subst h2
            rw [scanDigits_append r1 rest ds r2 hs hrest]
        · simp only [scanExp, hc, hsg, if_true, if_false, List.cons_append] at h ⊢
          cases hs : scanDigits (s :: r1) with
          | none => simp [hs] at h
          | some p =>
            obtain ⟨ds, r2⟩ := p
            rw [hs] at h
            simp at h
            obtain ⟨h1, h2⟩ := h
            subst h1
            subst h2
            have := scanDigits_append (s :: r1) rest ds r2 hs hrest
            rw [List.cons_append] at this
            rw [this]
    · simp only [scanExp, hc, if_false, List.cons_append] at h ⊢
      simp at h
      obtain ⟨h1, h2⟩ := h
      subst h1
      subst h2
      rfl

theorem scanNumber_append (cs rest a r : List Char) (h : scanNumber cs = some (a, r))
    (hrest : restOK rest) : scanNumber (cs ++ rest) = some (a, r ++ rest) := by
  cases cs with
  | nil => simp [scanNumber] at h
  | cons c t =>
    simp only [scanNumber, List.cons_append] at h ⊢
    have hif : (if c = '-' then t ++ rest else c :: (t ++ rest)) =
        (if c = '-' then t else c :: t) ++ rest := by
      split <;> rfl
    rw [hif]
    cases hi : scanInt (if c = '-' then t else c :: t) with
    | none => simp [hi] at h
    | some p =>
      obtain ⟨i, r1⟩ := p
      rw [hi] at h
      rw [scanInt_append _ rest i r1 hi hrest]
      simp only at h ⊢
      cases hf : scanFrac r1 with
      | none => simp [hf] at h
      | some q =>
        obtain ⟨f, r2⟩ := q
        rw [hf] at h
        rw [scanFrac_append _ rest f r2 hf hrest]
        simp only at h ⊢
        cases he : scanExp r2 with
        | none => simp [he] at h
        | some u =>
          obtain ⟨e, r3⟩ := u
          rw [he] at h
          rw [scanExp_append _ rest e r3 he hrest]
          simp only at h ⊢
          simp only [Option.some.injEq, Prod.mk.injEq] at h ⊢
          exact ⟨h.1, by rw [h.2]⟩

/-- A number token begins with a minus or a digit. -/
theorem scanNumber_head (cs a r : List Char) (h : scanNumber cs = some (a, r)) :
    ∃ c t, cs = c :: t ∧ (c = '-' ∨ isDigit c = true) := by
  cases cs with
  | nil => simp [scanNumber] at h
  | cons c t =>
    refine ⟨c, t, rfl, ?_⟩
    by_cases hc : c = '-'
    · exact Or.inl hc
    · right
      simp only [scanNumber, hc, if_false] at h
      cases hi : scanInt (c :: t) with
      | none => simp [hi] at h
      | some p =>
        unfold scanInt at hi
        rcases hd : takeDigits (c :: t) with ⟨ds, r0⟩
        rw [hd] at hi
        cases ds with
        | nil => simp at hi
        | cons d ds =>
          have := takeDigits_head (c :: t) d (by rw [hd]; rfl)
          simp at this
          rw [this.1]
          exact this.2

theorem number_head_facts (c : Char) (h : c = '-' ∨ isDigit c = true) :
    isWs c = false ∧ c ≠ 'n' ∧ c ≠ 't' ∧ c ≠ 'f' ∧ c ≠ '[' ∧ c ≠ '{' ∧ c ≠ dquote ∧
      c ≠ ']' ∧ c ≠ '}' ∧ c ≠ 'N' ∧ c ≠ 'I' := by
  rcases h with h | h
  · subst h
    decide
  · have h1 : 48 ≤ c.toNat ∧ c.toNat ≤ 57 := by
      simpa [isDigit] using h
    have hne : ∀ d : Char, (d.toNat < 48 ∨ 57 < d.toNat) → c ≠ d := by
      intro d hd hcd
      subst hcd
      omega
    refine ⟨?_, hne _ (by decide), hne _ (by decide), hne _ (by decide), hne _ (by decide),
      hne _ (by decide), hne _ (by decide), hne _ (by decide), hne _ (by decide),
      hne _ (by decide), hne _ (by decide)⟩
    simp only [isWs, Bool.or_eq_false_iff, decide_eq_false_iff_not]
    omega

/-- The text of a serializable number is the text `JSON.stringify` writes. -/
theorem numberText_token (t : String) (h : scanNumber t.data = some (t.data, [])) :
    numberText t = t.data := by
  obtain ⟨c, tl, hc, hd⟩ := scanNumber_head _ _ _ h
  obtain ⟨_, _, _, _, _, _, _, _, _, hN, hI⟩ := number_head_facts c hd
  unfold numberText
  have h1 : t ≠ "NaN" := by
    intro ht
    rw [ht] at hc
    cases hc
    exact hN rfl
  have h2 : t ≠ "Infinity" := by
    intro ht
    rw [ht] at hc
    cases hc
    exact hI rfl
  have h3 : t ≠ "-Infinity" := by
    intro ht
    rw [ht] at h
    revert h
    decide
  simp [h1, h2, h3]

theorem parseNumber_token (canon : List Char → List Char) (t : String) (rest : List Char)
    (h : scanNumber t.data = some (t.data, [])) (hc : canon t.data = t.data)
    (hrest : restOK rest) :
    parseNumber canon (t.data ++ rest) = some (.num t, rest) := by
  have := scanNumber_append _ rest _ _ h hrest
  simp only [List.nil_append] at this
  simp [parseNumber, this, hc]

/-! ## Strings -/

theorem hex4_quote : ∀ n, n < 32 →
    hex4 '0' '0' (hexDigit (n / 16)) (hexDigit (n % 16)) = some (Char.ofNat n) := by
  decide

theorem char_eq_of_toNat (c : Char) (n : Nat) (h : c.toNat = n) : c = Char.ofNat n := by
  rw [← h, Char.ofNat_toNat]

theorem parseStringBody_escape (e ch : Char) (tail s r : List Char)
    (he : e ≠ 'u') (hu : unescape e = some ch) (ih : parseStringBody tail = some (s, r)) :
    parseStringBody (bslash :: e :: tail) = some (ch :: s, r) := by
  have h1 : bslash ≠ dquote := by decide
  rw [parseStringBody.eq_def]
  simp only [h1, he, hu, ih, if_false, if_true]

theorem parseStringBody_hex (a b x d ch : Char) (tail s r : List Char)
    (hu : hex4 a b x d = some ch) (ih : parseStringBody tail = some (s, r)) :
    parseStringBody (bslash :: 'u' :: a :: b :: x :: d :: tail) = some (ch :: s, r) := by
  have h1 : bslash ≠ dquote := by decide
  rw [parseStringBody.eq_def]
  simp only [h1, hu, ih, if_false, if_true]

theorem parseStringBody_plain (c : Char) (tail s r : List Char)
    (h1 : c ≠ dquote) (h2 : c ≠ bslash) (h3 : ¬ c.toNat < 32)
    (ih : parseStringBody tail = some (s, r)) :
    parseStringBody (c :: tail) = some (c :: s, r) := by
  rw [parseStringBody.eq_def]
  simp only [h1, h2, h3, ih, if_false]

theorem parseStringBody_quoteChar (c : Char) (tail s r : List Char)
    (ih : parseStringBody tail = some (s, r)) :
    parseStringBody (quoteChar c ++ tail) = some (c :: s, r) := by
  unfold quoteChar
  split
  · rename_i h; subst h
    exact parseStringBody_escape _ _ _ _ _ (by decide) (by decide) ih
  split
  · rename_i h; subst h
    exact parseStringBody_escape _ _ _ _ _ (by decide) (by decide) ih
  split
  · rename_i h
    rw [char_eq_of_toNat c 8 h]
    exact parseStringBody_escape _ _ _ _ _ (by decide) (by decide) ih
  split
  · rename_i h
    rw [char_eq_of_toNat c 9 h]
    exact parseStringBody_escape _ _ _ _ _ (by decide) (by decide) ih
  split
  · rename_i h
    rw [char_eq_of_toNat c 10 h]
    exact parseStringBody_escape _ _ _ _ _ (by decide) (by decide) ih
  split
  · rename_i h
    rw [char_eq_of_toNat c 12 h]
    exact parseStringBody_escape _ _ _ _ _ (by decide) (by decide) ih
  split
  · rename_i h
    rw [char_eq_of_toNat c 13 h]
    exact parseStringBody_escape _ _ _ _ _ (by decide) (by decide) ih
  split
  · rename_i h
    have := hex4_quote c.toNat h
    rw [Char.ofNat_toNat] at this
    exact parseStringBody_hex _ _ _ _ _ _ _ _ this ih
  · rename_i h1 h2 _ _ _ _ _ h3
    exact parseStringBody_plain c tail s r h1 h2 h3 ih

theorem parseStringBody_quoteBody (s rest : List Char) :
    parseStringBody (quoteBody s ++ dquote :: rest) = some (s, rest) := by
  induction s with
  | nil =>
    rw [parseStringBody.eq_def]
    simp [quoteBody]
  | cons c cs ih =>
    simp only [quoteBody, List.append_assoc]
    exact parseStringBody_quoteChar c _ cs rest ih

variable {canon : List Char → List Char}

/-! ## Values -/

theorem skipWs_cons (c : Char) (cs : List Char) (h : isWs c = false) :
    skipWs (c :: cs) = c :: cs := by
  simp [skipWs, h]

theorem restOK_cons (c : Char) (cs : List Char)
    (h : isDigit c = false ∧ c ≠ '.' ∧ c ≠ 'e' ∧ c ≠ 'E') : restOK (c :: cs) := by
  intro d hd
  simp at hd
  subst hd
  exact h

theorem restOK_nil : restOK [] := by
  intro d hd
  simp at hd

theorem parseValue_null (fuel : Nat) (rest : List Char) :
    parseValue canon (fuel + 1) (['n', 'u', 'l', 'l'] ++ rest) = some (.null, rest) := by
  rw [parseValue]
  simp [skipWs, isWs, expect]

theorem parseValue_true (fuel : Nat) (rest : List Char) :
    parseValue canon (fuel + 1) (['t', 'r', 'u', 'e'] ++ rest) = some (.bool true, rest) := by
  rw [parseValue]
  simp [skipWs, isWs, expect]

theorem parseValue_false (fuel : Nat) (rest : List Char) :
    parseValue canon (fuel + 1) (['f', 'a', 'l', 's', 'e'] ++ rest) = some (.bool false, rest) := by
  rw [parseValue]
  simp [skipWs, isWs, expect]

theorem parseValue_str (fuel : Nat) (s rest : List Char) :
    parseValue canon (fuel + 1) (quote s ++ rest) = some (.str (String.mk s), rest) := by
  have h1 : isWs dquote = false := by decide
  have h2 : dquote ≠ 'n' ∧ dquote ≠ 't' ∧ dquote ≠ 'f' ∧ dquote ≠ '[' ∧ dquote ≠ '{' := by decide
  rw [parseValue]
  simp only [quote, List.cons_append, List.append_assoc, skipWs_cons _ _ h1, h2, if_false,
    if_true, parseStringBody_quoteBody, List.nil_append, List.singleton_append]

theorem parseValue_num (fuel : Nat) (t : String) (rest : List Char)
    (ht : scanNumber t.data = some (t.data, [])) (hc : canon t.data = t.data)
    (h : restOK rest) :
    parseValue canon (fuel + 1) (t.data ++ rest) = some (.num t, rest) := by
  have hp := parseNumber_token canon t rest ht hc h
  obtain ⟨c, tl, hct, hd⟩ := scanNumber_head _ _ _ ht
  obtain ⟨f1, f2, f3, f4, f5, f6, f7, _⟩ := number_head_facts c hd
  rw [hct] at hp ⊢
  rw [parseValue]
  simp only [List.cons_append, skipWs_cons _ _ f1, f2, f3, f4, f5, f6, f7, if_false]
  rw [List.cons_append] at hp
  simp only [hp]

theorem parseValue_arr_nil (fuel : Nat) (rest : List Char) :
    parseValue canon (fuel + 1) ('[' :: ([] ++ [']']) ++ rest) = some (.arr .nil, rest) := by
  rw [parseValue]
  simp [skipWs, isWs]

theorem parseValue_obj_nil (fuel : Nat) (rest : List Char) :
    parseValue canon (fuel + 1) ('{' :: ([] ++ ['}']) ++ rest) = some (.obj .nil, rest) := by
  rw [parseValue]
  simp [skipWs, isWs]

theorem parseValue_arr_cons (fuel : Nat) (body rest : List Char) (xs : JSList)
    (c : Char) (tl : List Char) (hb : body ++ ']' :: rest = c :: tl)
    (hc : isWs c = false) (hc2 : c ≠ ']')
    (hp : parseElements canon fuel (body ++ ']' :: rest) = some (xs, rest)) :
    parseValue canon (fuel + 1) ('[' :: (body ++ [']']) ++ rest) = some (.arr xs, rest) := by
  have h1 : isWs '[' = false := by decide
  have h2 : '[' ≠ 'n' ∧ '[' ≠ 't' ∧ '[' ≠ 'f' := by decide
  rw [parseValue]
  simp only [List.cons_append, List.append_assoc, List.singleton_append, List.nil_append,
    skipWs_cons _ _ h1, h2, if_false, if_true]
  rw [hb] at hp ⊢
  simp only [skipWs_cons _ _ hc, hc2, if_false, hp]

theorem parseValue_obj_cons (fuel : Nat) (body rest : List Char) (ps : JSProps)
    (c : Char) (tl : List Char) (hb : body ++ '}' :: rest = c :: tl)
    (hc : isWs c = false) (hc2 : c ≠ '}')
    (hp : parseMembers canon fuel (body ++ '}' :: rest) = some (ps, rest)) :
    parseValue canon (fuel + 1) ('{' :: (body ++ ['}']) ++ rest) =
      some (.obj (JSProps.build .nil ps), rest) := by
  have h1 : isWs '{' = false := by decide
  have h2 : '{' ≠ 'n' ∧ '{' ≠ 't' ∧ '{' ≠ 'f' ∧ '{' ≠ '[' := by decide
  rw [parseValue]
  simp only [List.cons_append, List.append_assoc, List.singleton_append, List.nil_append,
    skipWs_cons _ _ h1, h2, if_false, if_true]
  rw [hb] at hp ⊢
  simp only [skipWs_cons _ _ hc, hc2, if_false, hp]

theorem parseElements_last (fuel : Nat) (t rest : List Char) (v : JSValue)
    (hv : parseValue canon fuel (t ++ ']' :: rest) = some (v, ']' :: rest)) :
    parseElements canon (fuel + 1) (t ++ ']' :: rest) = some (.cons v .nil, rest) := by
  have h1 : isWs ']' = false := by decide
  have h2 : ']' ≠ ',' := by decide
  rw [parseElements]
  simp only [hv, skipWs_cons _ _ h1, h2, if_false, if_true]

theorem parseElements_more (fuel : Nat) (t more rest : List Char) (v : JSValue) (vs : JSList)
    (hv : parseValue canon fuel (t ++ ',' :: more) = some (v, ',' :: more))
    (hvs : parseElements canon fuel more = some (vs, rest)) :
    parseElements canon (fuel + 1) (t ++ ',' :: more) = some (.cons v vs, rest) := by
  have h1 : isWs ',' = false := by decide
  rw [parseElements]
  simp only [hv, skipWs_cons _ _ h1, if_true, hvs]

theorem parseMembers_last (fuel : Nat) (k t rest : List Char) (v : JSValue)
    (hv : parseValue canon fuel (t ++ '}' :: rest) = some (v, '}' :: rest)) :
    parseMembers canon (fuel + 1) ((quote k ++ ':' :: t) ++ '}' :: rest) =
      some (.cons (String.mk k) v .nil, rest) := by
  have h1 : isWs dquote = false := by decide
  have h2 : isWs ':' = false := by decide
  have h3 : isWs '}' = false := by decide
  have h4 : '}' ≠ ',' := by decide
  rw [parseMembers]
  simp only [quote, List.cons_append, List.append_assoc, List.singleton_append,
    List.nil_append, skipWs_cons _ _ h1, if_true, parseStringBody_quoteBody,
    skipWs_cons _ _ h2, hv, skipWs_cons _ _ h3, h4, if_false]

theorem parseMembers_more (fuel : Nat) (k t more rest : List Char) (v : JSValue) (ps : JSProps)
    (hv : parseValue canon fuel (t ++ ',' :: more) = some (v, ',' :: more))
    (hps : parseMembers canon fuel more = some (ps, rest)) :
    parseMembers canon (fuel + 1) ((quote k ++ ':' :: t) ++ ',' :: more) =
      some (.cons (String.mk k) v ps, rest) := by
  have h1 : isWs dquote = false := by decide
  have h2 : isWs ':' = false := by decide
  have h3 : isWs ',' = false := by decide
  rw [parseMembers]
  simp only [quote, List.cons_append, List.append_assoc, List.singleton_append,
    List.nil_append, skipWs_cons _ _ h1, if_true, parseStringBody_quoteBody,
    skipWs_cons _ _ h2, hv, skipWs_cons _ _ h3, hps]

theorem stringifyValue_head (v : JSValue) (hs : v.serializable canon = true) (t : List Char)
    (h : stringifyValue v = some t) :
    ∃ c tl, t = c :: tl ∧ isWs c = false ∧ c ≠ ']' ∧ c ≠ '}' := by
  cases v with
  | undefined => simp [stringifyValue] at h
  | null => simp [stringifyValue] at h; exact ⟨_, _, h.symm, by decide⟩
  | bool b =>
    cases b <;> (simp [stringifyValue] at h; exact ⟨_, _, h.symm, by decide⟩)
  | num n =>
    simp only [JSValue.serializable, decide_eq_true_eq] at hs
    simp only [stringifyValue, numberText_token n hs.1, Option.some.injEq] at h
    subst h
    obtain ⟨c, tl, hct, hd⟩ := scanNumber_head _ _ _ hs.1
    obtain ⟨f1, _, _, _, _, _, _, f8, f9, _⟩ := number_head_facts c hd
    exact ⟨c, tl, hct, f1, f8, f9⟩
  | str s => simp [stringifyValue, quote] at h; exact ⟨_, _, h.symm, by decide⟩
  | arr xs => simp [stringifyValue] at h; exact ⟨_, _, h.symm, by decide⟩
  | obj ps => simp [stringifyValue] at h; exact ⟨_, _, h.symm, by decide⟩

theorem commaJoin_head (t : List Char) (ts : List (List Char)) (rest : List Char)
    (c : Char) (tl : List Char) (h : t = c :: tl) :
    ∃ tl2, commaJoin (t :: ts) ++ rest = c :: tl2 := by
  subst h
  cases ts with
  | nil => exact ⟨_, rfl⟩
  | cons u us => exact ⟨_, rfl⟩

end JSON

variable {canon : List Char → List Char}

/-! ## Objects built from distinct keys -/

theorem JSProps.keys_append : ∀ (ps qs : JSProps), (ps.append qs).keys = ps.keys ++ qs.keys
  | .nil, qs => rfl
  | .cons k v ps, qs => by simp [JSProps.append, JSProps.keys, JSProps.keys_append ps qs]

theorem JSProps.append_nil : ∀ (ps : JSProps), ps.append .nil = ps
  | .nil => rfl
  | .cons k v ps => by simp [JSProps.append, JSProps.append_nil ps]

theorem JSProps.append_cons : ∀ (ps : JSProps) (k : String) (v : JSValue) (qs : JSProps),
    (ps.append (.cons k v .nil)).append qs = ps.append (.cons k v qs)
  | .nil, k, v, qs => rfl
  | .cons k0 v0 ps, k, v, qs => by simp [JSProps.append, JSProps.append_cons ps k v qs]

theorem JSProps.set_new : ∀ (ps : JSProps) (k : String) (v : JSValue), k ∉ ps.keys →
    ps.set k v = ps.append (.cons k v .nil)
  | .nil, k, v, _ => rfl
  | .cons k0 v0 ps, k, v, h => by
    simp only [JSProps.keys, List.mem_cons, not_or] at h
    have hne : ¬ k0 = k := fun e => h.1 e.symm
    simp [JSProps.set, hne, JSProps.append, JSProps.set_new ps k v h.2]

theorem JSProps.build_distinct : ∀ (ps acc : JSProps), ps.serializable canon = true →
    (∀ k ∈ ps.keys, k ∉ acc.keys) → JSProps.build acc ps = acc.append ps
  | .nil, acc, _, _ => by simp [JSProps.build, JSProps.append_nil]
  | .cons k v ps, acc, hs, hd => by
    simp only [JSProps.serializable, Bool.and_eq_true, Bool.not_eq_true',
      List.contains_eq_any_beq, List.any_eq_false, beq_iff_eq] at hs
    have hk : k ∉ acc.keys := hd k (by simp [JSProps.keys])
    rw [JSProps.build, JSProps.set_new acc k v hk,
      JSProps.build_distinct ps _ hs.2 ?_, JSProps.append_cons]
    intro k2 hk2
    rw [JSProps.keys_append]
    simp only [JSProps.keys, List.mem_append, List.mem_singleton, not_or]
    refine ⟨hd k2 (by simp [JSProps.keys, hk2]), ?_⟩
    intro e
    subst e
    exact hs.1.1 k2 hk2 rfl

namespace JSON

variable {canon : List Char → List Char}

theorem restOK_close (c : Char) (cs : List Char) (h : c = ']' ∨ c = '}' ∨ c = ',') :
    restOK (c :: cs) := by
  apply restOK_cons
  rcases h with h | h | h <;> subst h <;> decide

theorem stringifyElements_cons (v : JSValue) (vs : JSList) (t : List Char)
    (h : stringifyValue v = some t) :
    stringifyElements (.cons v vs) = t :: stringifyElements vs := by
  simp [stringifyElements, h]

theorem stringifyMembers_cons (k : String) (v : JSValue) (ps : JSProps) (t : List Char)
    (h : stringifyValue v = some t) :
    stringifyMembers (.cons k v ps) = (quote k.data ++ ':' :: t) :: stringifyMembers ps := by
  simp [stringifyMembers, h]

theorem stringifyValue_some (v : JSValue) (h : v.serializable canon = true) :
    ∃ t, stringifyValue v = some t := by
  cases v with
  | undefined => simp [JSValue.serializable] at h
  | bool b => cases b <;> exact ⟨_, rfl⟩
  | _ => exact ⟨_, rfl⟩

mutual
theorem parseValue_stringify : ∀ (v : JSValue), v.serializable canon = true →
    ∀ (fuel : Nat) (rest : List Char), v.need ≤ fuel → restOK rest →
      ∃ t, stringifyValue v = some t ∧ parseValue canon fuel (t ++ rest) = some (v, rest)
  | .undefined, hs, _, _, _, _ => by simp [JSValue.serializable] at hs
  | .null, _, fuel, rest, hf, _ => by
    obtain ⟨f, rfl⟩ : ∃ f, fuel = f + 1 := ⟨fuel - 1, by simp [JSValue.need] at hf; omega⟩
    exact ⟨_, rfl, parseValue_null f rest⟩
  | .bool true, _, fuel, rest, hf, _ => by
    obtain ⟨f, rfl⟩ : ∃ f, fuel = f + 1 := ⟨fuel - 1, by simp [JSValue.need] at hf; omega⟩
    exact ⟨_, rfl, parseValue_true f rest⟩
  | .bool false, _, fuel, rest, hf, _ => by
    obtain ⟨f, rfl⟩ : ∃ f, fuel = f + 1 := ⟨fuel - 1, by simp [JSValue.need] at hf; omega⟩
    exact ⟨_, rfl, parseValue_false f rest⟩
  | .num n, hs, fuel, rest, hf, hr => by
    obtain ⟨f, rfl⟩ : ∃ f, fuel = f + 1 := ⟨fuel - 1, by simp [JSValue.need] at hf; omega⟩
    simp only [JSValue.serializable, decide_eq_true_eq] at hs
    exact ⟨n.data, by simp only [stringifyValue, numberText_token n hs.1],
      parseValue_num f n rest hs.1 hs.2 hr⟩
  | .str s, _, fuel, rest, hf, _ => by
    obtain ⟨f, rfl⟩ : ∃ f, fuel = f + 1 := ⟨fuel - 1, by simp [JSValue.need] at hf; omega⟩
    exact ⟨_, rfl, parseValue_str f s.data rest⟩
  | .arr xs, hs, fuel, rest, hf, _ => by
    obtain ⟨f, rfl⟩ : ∃ f, fuel = f + 1 := ⟨fuel - 1, by simp [JSValue.need] at hf; omega⟩
    have ih := parseElements_stringify xs (by simpa [JSValue.serializable] using hs) f rest
      (by simp [JSValue.need] at hf; omega)
    refine ⟨_, rfl, ?_⟩
    cases xs with
    | nil => exact parseValue_arr_nil f rest
    | cons v vs =>
      obtain ⟨hp, c, tl, hb, hc, hc2⟩ := ih (by simp)
      exact parseValue_arr_cons f _ rest _ c tl hb hc hc2 hp
  | .obj ps, hs, fuel, rest, hf, _ => by
    obtain ⟨f, rfl⟩ : ∃ f, fuel = f + 1 := ⟨fuel - 1, by simp [JSValue.need] at hf; omega⟩
    have hps : ps.serializable canon = true := by simpa [JSValue.serializable] using hs
    have ih := parseMembers_stringify ps hps f rest (by simp [JSValue.need] at hf; omega)
    refine ⟨_, rfl, ?_⟩
    cases ps with
    | nil => exact parseValue_obj_nil f rest
    | cons k v qs =>
      obtain ⟨hp, c, tl, hb, hc, hc2⟩ := ih (by simp)
      have := parseValue_obj_cons f _ rest _ c tl hb hc hc2 hp
      rw [JSProps.build_distinct _ _ hps (by simp [JSProps.keys])] at this
      exact this
theorem parseElements_stringify : ∀ (xs : JSList), xs.serializable canon = true →
    ∀ (fuel : Nat) (rest : List Char), xs.need ≤ fuel → xs ≠ .nil →
      parseElements canon fuel (commaJoin (stringifyElements xs) ++ ']' :: rest) = some (xs, rest) ∧
      ∃ c tl, commaJoin (stringifyElements xs) ++ ']' :: rest = c :: tl ∧
        isWs c = false ∧ c ≠ ']'
  | .nil, _, _, _, _, hne => absurd rfl hne
  | .cons v vs, hs, fuel, rest, hf, _ => by
    simp only [JSList.serializable, Bool.and_eq_true] at hs
    obtain ⟨f, rfl⟩ : ∃ f, fuel = f + 1 := ⟨fuel - 1, by simp [JSList.need] at hf; omega⟩
    have hfv : v.need ≤ f := by simp [JSList.need] at hf; omega
    have hfvs : vs.need ≤ f := by simp [JSList.need] at hf; omega
    have ihv := parseValue_stringify v hs.1 f
    have ihvs := parseElements_stringify vs hs.2 f rest hfvs
    cases vs with
    | nil =>
      obtain ⟨t, ht, hp⟩ := ihv (']' :: rest) hfv (restOK_close _ _ (Or.inl rfl))
      obtain ⟨c, tl, htl, hc, hc2, _⟩ := stringifyValue_head v hs.1 t ht
      rw [stringifyElements_cons v _ t ht]
      refine ⟨parseElements_last f t rest v hp, c, tl ++ ']' :: rest, ?_, hc, hc2⟩
      simp [stringifyElements, commaJoin, htl]
    | cons v2 vs2 =>
      obtain ⟨hp2, c2, tl2, hb2, _, _⟩ := ihvs (by simp)
      obtain ⟨t, ht, hp⟩ := ihv (',' :: c2 :: tl2) hfv
        (restOK_close _ _ (Or.inr (Or.inr rfl)))
      obtain ⟨c, tl, htl, hc, hc2, _⟩ := stringifyValue_head v hs.1 t ht
      rw [stringifyElements_cons v _ t ht]
      rw [hb2] at hp2
      have hcj : commaJoin (t :: stringifyElements (.cons v2 vs2)) ++ ']' :: rest =
          t ++ ',' :: c2 :: tl2 := by
        rw [← hb2]
        simp [stringifyElements, commaJoin]
      rw [hcj]
      exact ⟨parseElements_more f t _ rest v _ hp hp2, c, tl ++ ',' :: c2 :: tl2,
        by simp [htl], hc, hc2⟩
theorem parseMembers_stringify : ∀ (ps : JSProps), ps.serializable canon = true →
    ∀ (fuel : Nat) (rest : List Char), ps.need ≤ fuel → ps ≠ .nil →
      parseMembers canon fuel (commaJoin (stringifyMembers ps) ++ '}' :: rest) = some (ps, rest) ∧
      ∃ c tl, commaJoin (stringifyMembers ps) ++ '}' :: rest = c :: tl ∧
        isWs c = false ∧ c ≠ '}'
  | .nil, _, _, _, _, hne => absurd rfl hne
  | .cons k v qs, hs, fuel, rest, hf, _ => by
    simp only [JSProps.serializable, Bool.and_eq_true] at hs
    obtain ⟨f, rfl⟩ : ∃ f, fuel = f + 1 := ⟨fuel - 1, by simp [JSProps.need] at hf; omega⟩
    have hfv : v.need ≤ f := by simp [JSProps.need] at hf; omega
    have hfqs : qs.need ≤ f := by simp [JSProps.need] at hf; omega
    have ihv := parseValue_stringify v hs.1.2 f
    have ihqs := parseMembers_stringify qs hs.2 f rest hfqs
    have hq : isWs dquote = false ∧ dquote ≠ '}' := by decide
    cases qs with
    | nil =>
      obtain ⟨t, ht, hp⟩ := ihv ('}' :: rest) hfv (restOK_close _ _ (Or.inr (Or.inl rfl)))
      rw [stringifyMembers_cons k v _ t ht]
      exact ⟨parseMembers_last f k.data t rest v hp, dquote,
        quoteBody k.data ++ dquote :: ':' :: (t ++ '}' :: rest),
        by simp [stringifyMembers, commaJoin, quote], hq.1, hq.2⟩
    | cons k2 v2 qs2 =>
      obtain ⟨hp2, c2, tl2, hb2, _, _⟩ := ihqs (by simp)
      obtain ⟨t, ht, hp⟩ := ihv (',' :: c2 :: tl2) hfv
        (restOK_close _ _ (Or.inr (Or.inr rfl)))
      rw [stringifyMembers_cons k v _ t ht]
      rw [hb2] at hp2
      have hne : ∃ u us, stringifyMembers (.cons k2 v2 qs2) = u :: us := by
        simp only [JSProps.serializable, Bool.and_eq_true] at hs
        obtain ⟨t2, ht2⟩ := stringifyValue_some v2 hs.2.1.2
        exact ⟨_, _, stringifyMembers_cons k2 v2 qs2 t2 ht2⟩
      obtain ⟨u, us, hu⟩ := hne
      have hcj : commaJoin ((quote k.data ++ ':' :: t) :: stringifyMembers (.cons k2 v2 qs2))
          ++ '}' :: rest = (quote k.data ++ ':' :: t) ++ ',' :: c2 :: tl2 := by
        rw [← hb2, hu]
        simp [commaJoin]
      rw [hcj]
      exact ⟨parseMembers_more f k.data t _ rest v _ hp hp2, dquote,
        quoteBody k.data ++ dquote :: ':' :: (t ++ ',' :: c2 :: tl2),
        by simp [quote], hq.1, hq.2⟩
end

/-! ## Enough fuel -/

theorem commaJoin_cons_length (t : List Char) (ts : List (List Char)) :
    t.length ≤ (commaJoin (t :: ts)).length ∧
      (ts ≠ [] → (commaJoin (t :: ts)).length = t.length + 1 + (commaJoin ts).length) := by
  cases ts with
  | nil => simp [commaJoin]
  | cons u us => simp [commaJoin]; omega

mutual
theorem need_le_length : ∀ (v : JSValue), v.serializable canon = true →
    ∀ t, stringifyValue v = some t → v.need ≤ t.length
  | .undefined, hs, _, _ => by simp [JSValue.serializable] at hs
  | .null, _, t, ht => by simp [stringifyValue] at ht; subst ht; simp [JSValue.need]
  | .bool true, _, t, ht => by simp [stringifyValue] at ht; subst ht; simp [JSValue.need]
  | .bool false, _, t, ht => by simp [stringifyValue] at ht; subst ht; simp [JSValue.need]
  | .num n, hs, t, ht => by
    obtain ⟨c, tl, h, _⟩ := stringifyValue_head _ hs t ht
    subst h
    simp [JSValue.need]
  | .str s, _, t, ht => by simp [stringifyValue, quote] at ht; subst ht; simp [JSValue.need]
  | .arr xs, hs, t, ht => by
    have := needElements_le_length xs (by simpa [JSValue.serializable] using hs)
    simp [stringifyValue] at ht
    subst ht
    simp [JSValue.need]
    omega
  | .obj ps, hs, t, ht => by
    have := needMembers_le_length ps (by simpa [JSValue.serializable] using hs)
    simp [stringifyValue] at ht
    subst ht
    simp [JSValue.need]
    omega
theorem needElements_le_length : ∀ (xs : JSList), xs.serializable canon = true →
    xs.need ≤ (commaJoin (stringifyElements xs)).length + 1
  | .nil, _ => by simp [JSList.need]
  | .cons v vs, hs => by
    simp only [JSList.serializable, Bool.and_eq_true] at hs
    obtain ⟨t, ht⟩ := stringifyValue_some v hs.1
    have h1 := need_le_length v hs.1 t ht
    have h2 := needElements_le_length vs hs.2
    rw [stringifyElements_cons v vs t ht]
    obtain ⟨h3, h4⟩ := commaJoin_cons_length t (stringifyElements vs)
    simp only [JSList.need]
    by_cases hne : stringifyElements vs = []
    · cases vs with
      | nil => simp [JSList.need] at h2 ⊢; omega
      | cons v2 vs2 => simp [stringifyElements] at hne
    · have := h4 hne
      omega
theorem needMembers_le_length : ∀ (ps : JSProps), ps.serializable canon = true →
    ps.need ≤ (commaJoin (stringifyMembers ps)).length + 1
  | .nil, _ => by simp [JSProps.need]
  | .cons k v qs, hs => by
    simp only [JSProps.serializable, Bool.and_eq_true] at hs
    obtain ⟨t, ht⟩ := stringifyValue_some v hs.1.2
    have h1 := need_le_length v hs.1.2 t ht
    have h2 := needMembers_le_length qs hs.2
    rw [stringifyMembers_cons k v qs t ht]
    obtain ⟨h3, h4⟩ := commaJoin_cons_length (quote k.data ++ ':' :: t) (stringifyMembers qs)
    have h5 : t.length ≤ (quote k.data ++ ':' :: t).length := by simp; omega
    simp only [JSProps.need]
    by_cases hne : stringifyMembers qs = []
    · cases qs with
      | nil => simp [JSProps.need] at h2 ⊢; omega
      | cons k2 v2 qs2 =>
        simp only [JSProps.serializable, Bool.and_eq_true] at hs
        obtain ⟨t2, ht2⟩ := stringifyValue_some v2 hs.2.1.2
        rw [stringifyMembers_cons k2 v2 qs2 t2 ht2] at hne
        cases hne
    · have := h4 hne
      omega
end

/-- `JSON.parse(JSON.stringify(v))` gives `v` back for every serializable
value. -/
theorem parse_stringify (v : JSValue) (hs : v.serializable canon = true) :
    ∃ text, stringify v = some text ∧ parse canon text = some v := by
  obtain ⟨t, ht⟩ := stringifyValue_some v hs
  have hlen := need_le_length v hs t ht
  obtain ⟨t2, ht2, hp⟩ := parseValue_stringify v hs (t.length + 1) [] (by omega) restOK_nil
  rw [ht] at ht2
  cases ht2
  refine ⟨String.mk t, by simp [stringify, ht], ?_⟩
  simp only [List.append_nil] at hp
  simp [parse, String.length, hp, skipWs]

end JSON

/-! ## The initial-data script -/

theorem untilFirst_clean (pat a b : List Char) (ha : occurrences pat a = 0)
    (hb : startsWith pat b = true) (hne : b ≠ [])
    (hh : ∀ c, b.head? = some c → c ∉ pat.tail) :
    untilFirst pat (a ++ b) = a := by
  induction a with
  | nil =>
    cases b with
    | nil => exact absurd rfl hne
    | cons c cs => simp [untilFirst, hb]
  | cons c cs ih =>
    rw [occurrences_cons] at ha
    have h1 : startsWith pat (c :: cs) = false := by
      cases h : startsWith pat (c :: cs) with
      | false => rfl
      | true => simp [h] at ha
    have h2 := startsWith_append_right pat (c :: cs) b (by simp) hh
    rw [h1] at h2
    rw [List.cons_append] at h2 ⊢
    simp only [untilFirst, h2]
    rw [ih (by omega)]
    simp

theorem initialDataText_falsy (extra : Extra) (hv : extra.initialData.truthy = false) :
    initialDataText extra = "\x7b\x7d" := by
  simp [initialDataText, JSValue.orEmptyObject, hv]
  rfl

theorem scriptContent (text rest : String)
    (hocc : occurrences scriptClose.data text.data = 0) :
    untilFirst scriptClose.data (text ++ "</script>\n        " ++ rest).data = text.data := by
  simp only [String.data_append, List.append_assoc]
  apply untilFirst_clean _ _ _ hocc
  · exact startsWith_append _ "</script>\n        ".data rest.data (by decide)
  · simp
  · exact headFree_append _ "</script>\n        ".data rest.data (by decide)

/-- C4 (as the code has it): both templates put the text of
`extra.initialData || \x7b\x7d` between `window.__INITIAL_DATA__ = ` and their
`</script>`. For every serializable `initialData` that is truthy (every object
and array, `true`, a finite number other than 0, a string other than `''`)
and whose JSON text holds no `</script>`, the content of the script element
after the assignment, which is the text up to the first `</script>`, is
`JSON.stringify(initialData)` and `JSON.parse` gives the original value for
it. For `undefined` and every other falsy value that content is the two braces
of the empty object. -/
theorem initial_data_round_trip (canon : List Char → List Char) (env : Env) (m : ModuleState)
    (hinit : init env = .ok m) (hssr : env.isSSREnabled = true)
    (html : Option String) (extra : Extra) (scripts : List String) :
    genHtml m html extra = .ok (docOpen ++ titleOf extra ++ "</title>\n        " ++ m.styleLinks ++
        "\n      </head>\n      <body>\n        <div id=\"app\">" ++ jsString html ++
        "</div>\n        " ++ dataScriptOpen ++ initialDataText extra ++
        "</script>\n        " ++ m.manifestInlineScript ++
        "\n        " ++ join "" (extra.scripts.getD []) ++
        "\n        \n        " ++ appScriptOpen ++
        (m.publicPath ++ jsString (env.groupedManifest.manifest.lookup m.APP_JS)) ++ docClose) ∧
    after m extra scripts = .ok ("</div>\n    " ++ dataScriptOpen ++ initialDataText extra ++
        "</script>\n        " ++ m.manifestInlineScript ++
        "\n        " ++ arrayToString scripts ++
        "\n        " ++ appScriptOpen ++
        (m.publicPath ++ jsString (env.groupedManifest.manifest.lookup m.APP_JS)) ++ docClose) ∧
    (extra.initialData.serializable canon = true → extra.initialData.truthy = true →
      occurrences scriptClose.data (initialDataText extra).data = 0 →
      JSON.stringify extra.initialData = some (initialDataText extra) ∧
      ∀ rest : String,
        untilFirst scriptClose.data (initialDataText extra ++ "</script>\n        " ++ rest).data =
          (initialDataText extra).data ∧
        JSON.parse canon (String.mk (untilFirst scriptClose.data
          (initialDataText extra ++ "</script>\n        " ++ rest).data)) =
          some extra.initialData) ∧
    (extra.initialData.truthy = false →
      initialDataText extra = "\x7b\x7d" ∧
      ∀ rest : String,
        untilFirst scriptClose.data (initialDataText extra ++ "</script>\n        " ++ rest).data =
          "\x7b\x7d".data ∧
        JSON.parse canon (String.mk (untilFirst scriptClose.data
          (initialDataText extra ++ "</script>\n        " ++ rest).data)) =
          some (.obj .nil)) := by
  obtain ⟨_, hidx, _, hm, _, _⟩ := init_ssr env m hinit hssr
  refine ⟨genHtml_ssr m _ hm hidx html extra, after_ssr m _ hm extra scripts, ?_, ?_⟩
  · intro hs hv hocc
    obtain ⟨text, h1, h2⟩ := JSON.parse_stringify _ hs
    have ht := initialDataText_truthy extra text hv h1
    rw [ht] at hocc ⊢
    refine ⟨h1, fun rest => ?_⟩
    rw [scriptContent text rest hocc]
    exact ⟨rfl, h2⟩
  · intro hv
    rw [initialDataText_falsy extra hv]
    refine ⟨rfl, fun rest => ?_⟩
    rw [scriptContent "\x7b\x7d" rest (by decide)]
    exact ⟨rfl, rfl⟩

/-- C4 at data of the `/github` route, a list of branches, in the tail of
`genHtmlStream` for the development build: the content of the data script
parses to the data. -/
theorem initial_data_round_trip_witness :
    JSON.stringify (.obj (.cons "github" (.arr (.cons (.obj (.cons "name" (.str "master")
        (.cons "protected" (.bool false) (.cons "size" (.num "1.5") .nil)))) .nil)) .nil)) =
      some "\x7b\"github\":[\x7b\"name\":\"master\",\"protected\":false,\"size\":1.5\x7d]\x7d" ∧
    after devModule { initialData := .obj (.cons "github" (.arr (.cons (.obj (.cons "name" (.str "master")
        (.cons "protected" (.bool false) (.cons "size" (.num "1.5") .nil)))) .nil)) .nil) } [] =
      .ok ("</div>\n    " ++ dataScriptOpen ++
        "\x7b\"github\":[\x7b\"name\":\"master\",\"protected\":false,\"size\":1.5\x7d]\x7d" ++
        "</script>\n        " ++
        "<script type=\"text/javascript\" src=\"/runtime.1.js\"></script>" ++
        "\n        " ++ "" ++ "\n        " ++ appScriptOpen ++ "/app.1.js" ++ docClose) ∧
    JSON.parse id (String.mk (untilFirst scriptClose.data
        ("\x7b\"github\":[\x7b\"name\":\"master\",\"protected\":false,\"size\":1.5\x7d]\x7d" ++
          "</script>\n        " ++
          ("<script type=\"text/javascript\" src=\"/runtime.1.js\"></script>" ++
            "\n        " ++ "" ++ "\n        " ++ appScriptOpen ++ "/app.1.js" ++
            docClose)).data)) =
      some (.obj (.cons "github" (.arr (.cons (.obj (.cons "name" (.str "master")
        (.cons "protected" (.bool false) (.cons "size" (.num "1.5") .nil)))) .nil)) .nil)) := by
  have h := initial_data_round_trip id devEnv devModule rfl rfl (some "<div>A</div>")
    { initialData := .obj (.cons "github" (.arr (.cons (.obj (.cons "name" (.str "master")
        (.cons "protected" (.bool false) (.cons "size" (.num "1.5") .nil)))) .nil)) .nil) }
    []
  exact ⟨rfl, h.2.1, ((h.2.2.1 rfl rfl (by decide)).2 _).2⟩

set_option maxRecDepth 100000 in
/-- C4 fails on the code: the data `\x7bgithub: [\x7bname: '</script>'\x7d]\x7d` is
serializable and `JSON.parse` gives it back from its JSON text, but in the
tail of `genHtmlStream` the content of the data script after the assignment
ends at the `</script>` of the data: `JSON.parse` throws for it. -/
theorem initial_data_round_trip_counterexample :
    (∀ canon, JSValue.serializable canon
      (.obj (.cons "github"
        (.arr (.cons (.obj (.cons "name" (.str "</script>") .nil)) .nil)) .nil)) = true) ∧
    (∀ canon, JSON.parse canon "\x7b\"github\":[\x7b\"name\":\"</script>\"\x7d]\x7d" =
      some (.obj (.cons "github"
        (.arr (.cons (.obj (.cons "name" (.str "</script>") .nil)) .nil)) .nil))) ∧
    after devModule
      { initialData := .obj (.cons "github"
        (.arr (.cons (.obj (.cons "name" (.str "</script>") .nil)) .nil)) .nil) } [] =
      .ok ("</div>\n    " ++ dataScriptOpen ++
        ("\x7b\"github\":[\x7b\"name\":\"</script>\"\x7d]\x7d" ++
          "</script>\n        " ++
          "<script type=\"text/javascript\" src=\"/runtime.1.js\"></script>" ++
          "\n        " ++ "" ++ "\n        " ++ appScriptOpen ++ "/app.1.js" ++
          docClose)) ∧
    untilFirst scriptClose.data
      ("\x7b\"github\":[\x7b\"name\":\"</script>\"\x7d]\x7d" ++
        "</script>\n        " ++
        "<script type=\"text/javascript\" src=\"/runtime.1.js\"></script>" ++
        "\n        " ++ "" ++ "\n        " ++ appScriptOpen ++ "/app.1.js" ++
        docClose).data = "\x7b\"github\":[\x7b\"name\":\"".data ∧
    ∀ canon, JSON.parse canon "\x7b\"github\":[\x7b\"name\":\"" = none :=
  ⟨fun _ => rfl, fun _ => rfl, rfl, by decide, fun _ => rfl⟩

end Routes
